import Mathlib

/-
  Verification development for the wavematch rule-resolution engine
  (repository `chrisisler/rematch`).

  The engine lives in `src/src/match.js` (pattern acceptance, specificity
  resolution) and the rule-resolution loop in `src/lib/index.js`
  (`wavematch`, lines 102-119).  JavaScript runtime values are embedded as
  the inductive `Value`; JS numbers are rationals (only equality is ever
  used on them, and `4.0 === 4` holds in JS exactly as `(4 : Rat) = 4`);
  functions are closure indices resolved through an explicit environment
  `GuardEnv`; exceptions thrown by the engine (`invariant` faults and
  JS runtime TypeErrors such as property access on `undefined`) are
  modelled with `Except Err`.  The mutually recursive part of the engine
  (`isPatternAcceptable` / `ruleMatchesObjectInput` recurse through object
  property values) is given an explicit fuel argument so that every
  definition is structurally recursive and computable; fuel exhaustion is
  a distinguished error that no theorem ever treats as an answer.
-/

set_option maxRecDepth 8000

namespace Wavematch

/-- Names of the built-in constructor functions that the engine recognizes
(the `TYPES` array of match.js, lines 27-40; only the members that can
appear in this embedding's value universe are listed). -/
inductive CtorName where
  | Object
  | Boolean
  | Number
  | Function
  | Array
  | String
  | RegExp
  | Date
  | Set
  | Map
  | Error
deriving DecidableEq

/-- Shallow embedding of the JavaScript runtime values handled by the
engine.  `num` carries a rational: the engine only ever compares numbers
for equality, and a JS number is an "integer" exactly when the reduced
denominator is 1 (`4.0` and `4` are the same JS value).  `fn idx` is a
function value; its behaviour when applied (a guard) is looked up in a
`GuardEnv`, and two `fn` values are reference-equal iff their indices
agree.  `instOf name parents fields` is a class instance: its constructor
is named `name`, `parents` is the chain of ancestor class names (the
source text `class name extends parents.head ...`), and `fields` are its
own enumerable properties.  `ctor` is a reference to one of the built-in
constructor functions. -/
inductive Value where
  | num (q : ℚ)
  | str (s : String)
  | bool (b : Bool)
  | null
  | undef
  | obj (kvs : List (String × Value))
  | arr (vs : List Value)
  | date (ms : Int)
  | ctor (c : CtorName)
  | fn (idx : Nat)
  | instOf (name : String) (parents : List String) (fields : List (String × Value))

/-- Guard environment: gives each function value `fn idx` its behaviour
when applied to one argument (JS functions return arbitrary values). -/
def GuardEnv : Type := Nat → Value → Value

/-- Property lookup in an object's field list (JS objects have unique
keys; the first binding wins, as in JS property access). -/
def lookupVal : List (String × Value) → String → Option Value
  | [], _ => none
  | (k, v) :: rest, key => if k = key then some v else lookupVal rest key

mutual

/-- Deep structural equality, embedding the `fast-deep-equal` package used
by match.js: primitives by value, arrays by length and element-wise
equality, objects by key count plus per-key lookup (so key order does not
matter), functions and dates by identity of the embedded data; values of
different kinds are never equal. -/
def isEqual : Value → Value → Bool
  | .num a, .num b => decide (a = b)
  | .str a, .str b => decide (a = b)
  | .bool a, .bool b => a == b
  | .null, .null => true
  | .undef, .undef => true
  | .date a, .date b => decide (a = b)
  | .ctor a, .ctor b => decide (a = b)
  | .fn i, .fn j => decide (i = j)
  | .arr as, .arr bs => decide (as.length = bs.length) && isEqualList as bs
  | .obj as, .obj bs => decide (as.length = bs.length) && isEqualKeys as bs
  | .instOf n1 p1 f1, .instOf n2 p2 f2 =>
      decide (n1 = n2) && decide (p1 = p2) &&
        (decide (f1.length = f2.length) && isEqualKeys f1 f2)
  | _, _ => false

/-- Element-wise equality of two arrays of equal length. -/
def isEqualList : List Value → List Value → Bool
  | [], _ => true
  | a :: as, bs =>
    (match bs with
     | [] => false
     | b :: bs2 => isEqual a b && isEqualList as bs2)

/-- Every key of the first object maps to a deep-equal value in the
second object. -/
def isEqualKeys : List (String × Value) → List (String × Value) → Bool
  | [], _ => true
  | (k, v) :: rest, bs =>
    (match lookupVal bs k with
     | some w => isEqual v w
     | none => false) && isEqualKeys rest bs
end

/-- JS strict equality `===` as the engine can observe it: primitives
(numbers, strings, booleans, `null`, `undefined`) compare by value;
references to the same built-in constructor compare equal; function
values compare by reference (their closure index).  Two object, array,
date or instance values produced independently (a pattern text and a
caller-supplied input) are distinct references, hence never `===`. -/
def strictEq : Value → Value → Bool
  | .num a, .num b => decide (a = b)
  | .str a, .str b => decide (a = b)
  | .bool a, .bool b => a == b
  | .null, .null => true
  | .undef, .undef => true
  | .ctor a, .ctor b => decide (a = b)
  | .fn i, .fn j => decide (i = j)
  | _, _ => false

/-- The classification tag `Object.prototype.toString` gives a value
(shared.js `getType`, written `[object X]` there; the surrounding
brackets are dropped here).  Class instances are plain `Object`s to this
probe, and both plain functions and the built-in constructors are
`Function`s. -/
def jsTypeTag : Value → String
  | .num _ => "Number"
  | .str _ => "String"
  | .bool _ => "Boolean"
  | .null => "Null"
  | .undef => "Undefined"
  | .obj _ => "Object"
  | .arr _ => "Array"
  | .date _ => "Date"
  | .ctor _ => "Function"
  | .fn _ => "Function"
  | .instOf _ _ _ => "Object"

/-- Modelled from the spec: `isType` lives in `src/shared.js`, which is not
present under `src/`; per its call sites and the spec's Value Classifier it
tests the `Object.prototype.toString` tag of a value against a type name. -/
def isType (t : String) (v : Value) : Bool := jsTypeTag v == t

/-- Modelled from the spec: `isFloat` lives in `src/shared.js`, which is
not present under `src/`.  Spec section 4.2 calls a value a Float kind
when it is a non-integer numeric input; a rational embeds a JS number and
is non-integer exactly when its reduced denominator is not 1 (so `4.0`
is an integer, as in JS where `4.0 % 1 === 0`). -/
def isFloat : Value → Bool
  | .num q => decide (q.den ≠ 1)
  | _ => false

/-- Modelled from the spec: `isArrayLike` lives in `src/shared.js`, which
is not present under `src/`.  Arrays are array-like, and so are strings
(match.js line 502 notes "the isArrayLike predicate evaluates true for
Strings: exclude those" before excluding them by hand). -/
def isArrayLike : Value → Bool
  | .arr _ => true
  | .str _ => true
  | _ => false

/-- JS truthiness, used for `if (guardResult)` after the invariant has
established that `guardResult` is a Boolean. -/
def truthy : Value → Bool
  | .bool b => b
  | .num q => decide (q ≠ 0)
  | .str s => decide (s ≠ "")
  | .null => false
  | .undef => false
  | _ => true

/-- The `input.toString()` call of match.js line 593; it is only ever
reached with a string input (possibly a boxed `new String`), where it
returns the underlying primitive string. -/
def jsToString : Value → Value
  | .str s => .str s
  | v => v

/-- The own enumerable properties of an object-kind value. -/
def objectFieldsOf : Value → List (String × Value)
  | .obj kvs => kvs
  | .instOf _ _ fields => fields
  | _ => []

/-- `Object.keys` of an object-kind value. -/
def objectKeysOf (v : Value) : List String := (objectFieldsOf v).map Prod.fst

/-- JS property access `v[key]` on an object-kind value: the bound value,
or `undefined` when the key is absent (also `undefined` on non-objects,
which is all the engine observes for the values it reaches this with). -/
def objectGet (v : Value) (key : String) : Value :=
  match lookupVal (objectFieldsOf v) key with
  | some w => w
  | none => (.undef)

/-- The JS `typeof v === 'object'` test (true for objects, arrays, dates,
class instances, and famously for `null`). -/
def jsTypeofObject : Value → Bool
  | .obj _ => true
  | .arr _ => true
  | .date _ => true
  | .null => true
  | .instOf _ _ _ => true
  | _ => false

/-- Errors surfaced by the engine: `invariantFault` embeds a thrown
`invariant` (match.js raises these for caller contract violations, e.g. a
guard returning a non-Boolean); `typeError` embeds a JS runtime TypeError
(property access on `undefined`/`null`); `fuelExhausted` is an artifact
of the fuel-structured recursion and is never produced when the fuel
dominates the recursion depth. -/
inductive Err where
  | invariantFault (message : String)
  | typeError (message : String)
  | fuelExhausted
deriving DecidableEq

/-- JS `input.constructor.name`.  Accessing `constructor` on `null` or
`undefined` throws a TypeError. -/
def constructorName : Value → Except Err String
  | .null => .error (.typeError "cannot read constructor of null")
  | .undef => .error (.typeError "cannot read constructor of undefined")
  | .num _ => pure "Number"
  | .str _ => pure "String"
  | .bool _ => pure "Boolean"
  | .obj _ => pure "Object"
  | .arr _ => pure "Array"
  | .date _ => pure "Date"
  | .ctor _ => pure "Function"
  | .fn _ => pure "Function"
  | .instOf name _ _ => pure name

/-- match.js `tryGetParentClassName` (lines 342-358): reads the source
text of `instance.constructor`; only a `class Name extends Parent ...`
declaration mentions both `class` and `extends`, in which case the
fourth word is the (single, immediate) parent class name.  In this
embedding the source text of an instance's constructor is canonical, so
the internal invariant (`parts[2] !== 'extends'`) can never fire; plain
functions and built-in constructors yield no parent.  Accessing
`constructor` on `null`/`undefined` throws, as in JS. -/
def tryGetParentClassName : Value → Except Err (Option String)
  | .null => .error (.typeError "cannot read constructor of null")
  | .undef => .error (.typeError "cannot read constructor of undefined")
  | .instOf _ parents _ => pure parents.head?
  | _ => pure none

/-- One reflected parameter of a rule (the `ReflectedArg` flow type):
`argName` is the declared parameter name (`"@@DESTRUCTURED"` with
`isDestructured := true` for a destructured parameter), `pattern` is the
evaluated default-parameter value when one exists (`some .undef` embeds a
present-but-`undefined` default, `none` the absence of the key),
`customTypeNames` the PascalCase identifiers that failed to evaluate, and
`subPatterns` the evaluated alternatives of a union pattern. -/
structure ReflectedArg where
  argName : String
  isDestructured : Bool
  pattern : Option Value
  customTypeNames : Option (List String)
  subPatterns : Option (List Value)

/-- The part of a reflected argument that `isPatternAcceptable` reads:
it is called both with full `ReflectedArg`s and with the ad-hoc
sub-reflected-arg objects built for union alternatives (match.js lines
144-148), whose `customTypeNames` key is present but `undefined`.
`customPresent` embeds the JS `'customTypeNames' in reflectedArg` test,
`customTypeNames` the (nullable) value. -/
structure ArgView where
  pattern : Option Value
  customPresent : Bool
  customTypeNames : Option (List String)

/-- View of a full reflected argument as seen by `isPatternAcceptable`. -/
def ReflectedArg.view (ra : ReflectedArg) : ArgView :=
  { pattern := ra.pattern
    customPresent := ra.customTypeNames.isSome
    customTypeNames := ra.customTypeNames }

/-- A rule: its reflected parameters.  The theorems report a selected
rule by index, so the opaque body is not carried. -/
structure Rule where
  allReflectedArgs : List ReflectedArg

/-- The stored `arity` field of a rule always equals the number of
reflected arguments (`toRule`, match.js lines 105-109). -/
def Rule.arity (r : Rule) : Nat := r.allReflectedArgs.length

/-- match.js `ruleIsWildcard` (line 123): some parameter is named `_`. -/
def ruleIsWildcard (rule : Rule) : Bool :=
  rule.allReflectedArgs.any fun arg => arg.argName == "_"

/-- JS array indexing `rule.allReflectedArgs[inputIndex]` in positions
where the result is immediately dereferenced (`'pattern' in r`,
`.isDestructured`, ...): an out-of-range access yields `undefined` and
the dereference throws a TypeError. -/
def getReflectedArg (rule : Rule) (inputIndex : Nat) : Except Err ReflectedArg :=
  match rule.allReflectedArgs[inputIndex]? with
  | some ra => pure ra
  | none => .error (.typeError "property access on undefined reflected arg")

/-- JS array indexing `rules[ruleIndex]` followed by a dereference. -/
def getRule (rules : List Rule) (ruleIndex : Nat) : Except Err Rule :=
  match rules[ruleIndex]? with
  | some r => pure r
  | none => .error (.typeError "property access on undefined rule")

/-- `Array.prototype.some` with a callback that can throw. -/
def anyExc {α : Type} (f : α → Except Err Bool) : List α → Except Err Bool
  | [] => pure false
  | x :: xs =>
    match f x with
    | .error e => .error e
    | .ok true => pure true
    | .ok false => anyExc f xs

/-- `Array.prototype.findIndex` with a callback that can throw. -/
def findIndexExcGo {α : Type} (f : α → Except Err Bool) : Nat → List α → Except Err (Option Nat)
  | _, [] => pure none
  | i, x :: xs =>
    match f x with
    | .error e => .error e
    | .ok true => pure (some i)
    | .ok false => findIndexExcGo f (i + 1) xs

/-- Indexed `every` (shared.js `every` over the inputs) with a callback
that can throw; short-circuits on the first rejection. -/
def allIdxExcGo (f : Value → Nat → Except Err Bool) : Nat → List Value → Except Err Bool
  | _, [] => pure true
  | i, x :: xs =>
    match f x i with
    | .error e => .error e
    | .ok true => allIdxExcGo f (i + 1) xs
    | .ok false => pure false

/-- Pure indexed `every` over a list of values (shared.js `every` in the
positions where the callback cannot throw). -/
def everyWithIndexGo (f : Value → Nat → Bool) : Nat → List Value → Bool
  | _, [] => true
  | i, x :: xs => f x i && everyWithIndexGo f (i + 1) xs

/-- The membership test `TYPES.includes(pattern)` (match.js line 478):
in this universe exactly the built-in constructor references are members
of `TYPES`. -/
def TYPESmem : Value → Bool
  | .ctor _ => true
  | _ => false

/-- match.js lines 532-544: while a generic `Number` pattern is being
evaluated, scan all rules for a non-wildcard rule whose pattern at this
position is a number literal strictly equal to the input. -/
def otherRuleMatchesNumberLiteral (rules : List Rule) (inputIndex : Nat) (input : Value) :
    Except Err Bool :=
  anyExc (fun rule =>
    if ruleIsWildcard rule then pure false
    else
      match getReflectedArg rule inputIndex with
      | .error e => .error e
      | .ok reflectedArgs =>
        match reflectedArgs.pattern with
        | some p => if isType "Number" p then pure (strictEq p input) else pure false
        | none => pure false) rules

/-- match.js lines 573-585: the analogous all-rules scan for a string
literal equal to the input, consulted by a generic `String` pattern. -/
def otherRuleMatchesStringLiteral (rules : List Rule) (inputIndex : Nat) (input : Value) :
    Except Err Bool :=
  anyExc (fun rule =>
    if ruleIsWildcard rule then pure false
    else
      match getReflectedArg rule inputIndex with
      | .error e => .error e
      | .ok reflectedArgs =>
        match reflectedArgs.pattern with
        | some p => if isType "String" p then pure (strictEq p input) else pure false
        | none => pure false) rules

/-- One entry of the `bestFitRules` collection (match.js line 186): the
key count of a candidate pattern and the index of the rule offering it. -/
structure BestFit where
  size : Nat
  index : Nat
deriving DecidableEq

/-- match.js `pushIfValidSize` (lines 193-200): append an entry for this
pattern unless it declares more keys than the input has.  The size is
`Object.keys(pattern).length`, which throws on `null`/`undefined`
patterns, counts an array's indices, a string's characters, and is 0 for
other primitives and functions. -/
def pushIfValidSize (inputSize index : Nat) (pattern : Value) (reduced : List BestFit) :
    Except Err (List BestFit) :=
  match pattern with
  | .null => .error (.typeError "Object.keys of null")
  | .undef => .error (.typeError "Object.keys of undefined")
  | .obj kvs => pure (if kvs.length ≤ inputSize then reduced ++ [⟨kvs.length, index⟩] else reduced)
  | .instOf _ _ fields =>
      pure (if fields.length ≤ inputSize then reduced ++ [⟨fields.length, index⟩] else reduced)
  | .arr vs => pure (if vs.length ≤ inputSize then reduced ++ [⟨vs.length, index⟩] else reduced)
  | .str s => pure (if s.length ≤ inputSize then reduced ++ [⟨s.length, index⟩] else reduced)
  | _ => pure (if 0 ≤ inputSize then reduced ++ [⟨0, index⟩] else reduced)

/-- `r.subPatterns.forEach(subPattern => pushIfValidSize(subPattern))`
(match.js lines 205-207). -/
def pushSubPatterns (inputSize index : Nat) : List Value → List BestFit → Except Err (List BestFit)
  | [], reduced => pure reduced
  | p :: ps, reduced =>
    match pushIfValidSize inputSize index p reduced with
    | .error e => .error e
    | .ok reduced2 => pushSubPatterns inputSize index ps reduced2

/-- The `rules.reduce` of match.js lines 187-213, collecting across all
non-wildcard rules every candidate pattern at this position: a present
pattern is collected when `typeof` calls it an object (objects, arrays,
dates, class instances — and `null`, on which `Object.keys` then
throws); otherwise every union alternative is collected regardless of
its type.  Accessing the reflected arg of a rule that lacks this
position throws, as in JS (`'pattern' in undefined`). -/
def collectBestFitRulesGo (inputIndex inputSize : Nat) :
    Nat → List Rule → List BestFit → Except Err (List BestFit)
  | _, [], reduced => pure reduced
  | index, rule :: rest, reduced =>
    if ruleIsWildcard rule then
      collectBestFitRulesGo inputIndex inputSize (index + 1) rest reduced
    else
      match getReflectedArg rule inputIndex with
      | .error e => .error e
      | .ok r =>
        let step : Except Err (List BestFit) :=
          match r.pattern with
          | some p =>
            if jsTypeofObject p then pushIfValidSize inputSize index p reduced
            else
              match r.subPatterns with
              | some subs => pushSubPatterns inputSize index subs reduced
              | none => pure reduced
          | none =>
            match r.subPatterns with
            | some subs => pushSubPatterns inputSize index subs reduced
            | none => pure reduced
        match step with
        | .error e => .error e
        | .ok reduced2 => collectBestFitRulesGo inputIndex inputSize (index + 1) rest reduced2

/-- The collected best-fit candidates for an object input of `inputSize`
keys (match.js lines 187-213). -/
def collectBestFitRules (rules : List Rule) (inputIndex inputSize : Nat) :
    Except Err (List BestFit) :=
  collectBestFitRulesGo inputIndex inputSize 0 rules []

/-- The head of `bestFitRules.sort((b1, b2) => b1.size > b2.size ? -1 : 1)`
(match.js lines 227-229): a maximal size when the list is nonempty;
`undefined` (here `none`, on which reading `.size` then throws) when it
is empty. -/
def maximumSize : List BestFit → Option Nat
  | [] => none
  | b :: bs => some ((bs.map BestFit.size).foldl max b.size)

/-- The length of an array pattern, read after an `isType('Array', p)`
check (match.js line 294). -/
def arrayLenOf : Value → Nat
  | .arr vs => vs.length
  | _ => 0

/-- match.js `ruleMatchesArrayInput` (lines 271-331).  A generic `Array`
constructor pattern defers to a concrete array-destructuring rule found
anywhere in the rule set (accepting only when that rule precedes this
one); a concrete array pattern requires, for a nonempty input it does
not exceed, either a prefix match (exactly when the whole rule set has
exactly two rules, `rules.length === 2`, line 316) or full deep
equality. -/
def ruleMatchesArrayInput (arrayInput : List Value) (inputIndex : Nat) (rules : List Rule)
    (ruleIndex : Nat) (pattern : Value) : Except Err Bool :=
  match pattern with
  | .ctor .Array =>
    match findIndexExcGo (fun rule =>
        if ruleIsWildcard rule then pure false
        else
          match getReflectedArg rule inputIndex with
          | .error e => .error e
          | .ok reflectedArgs =>
            match reflectedArgs.pattern with
            | some p =>
              if isType "Array" p then pure (decide (arrayLenOf p ≤ arrayInput.length))
              else pure false
            | none => pure false) 0 rules with
    | .error e => .error e
    | .ok (some indexOfDestructuringRule) => pure (decide (indexOfDestructuringRule < ruleIndex))
    | .ok none => pure (isType "Array" (Value.arr arrayInput))
  | .arr patternElems =>
    if arrayInput.length = 0 then pure (isEqual (.arr patternElems) (.arr arrayInput))
    else if patternElems.length > arrayInput.length then pure false
    else if patternElems.length = 0 then pure false
    else if rules.length = 2 then
      pure (everyWithIndexGo
        (fun destructuredArrayValue i => isEqual destructuredArrayValue (arrayInput.getD i .undef))
        0 patternElems)
    else pure (isEqual (.arr patternElems) (.arr arrayInput))
  | _ => pure false

/-- The array elements of an array-kind value (the input reaching
`ruleMatchesArrayInput` is always an actual array in this universe; the
`Array.from` coercion of `arguments` objects has no counterpart here). -/
def arrayElemsOf : Value → List Value
  | .arr vs => vs
  | _ => []

/-- match.js lines 456-474, second half: derived-class matching.  Looks
up the input's single immediate parent class name and accepts when the
custom type names include it. -/
def customParentCheck (reflectedArg : ArgView) (input : Value) : Except Err Bool :=
  match tryGetParentClassName input with
  | .error e => .error e
  | .ok (some inputParentTypeName) =>
      match reflectedArg.customTypeNames with
      | some names => pure (names.contains inputParentTypeName)
      | none => pure false
  | .ok none => pure false

/-- match.js lines 456-474: when the reflected arg carries (a possibly
`undefined`) `customTypeNames`, accept an input whose own constructor
name, or single immediate parent class name, is among them.  A `true`
result accepts immediately; `false` means the check did not conclude and
the engine continues with the pattern. -/
def customTypeNamesSection (reflectedArg : ArgView) (input : Value) : Except Err Bool :=
  if reflectedArg.customPresent then
    match reflectedArg.customTypeNames with
    | some names =>
      match constructorName input with
      | .error e => .error e
      | .ok cn =>
        if names.contains cn then pure true
        else customParentCheck reflectedArg input
    | none => customParentCheck reflectedArg input
  else pure false

/-- match.js lines 478-499: a pattern that is not one of the built-in
constructors may be a Promise (accepted outright; no Promise values
exist in this universe) or a guard function: the guard is applied to the
input, a non-Boolean result trips the `invariant` (a thrown error, not a
rejection), a `true` result accepts, and a `false` result lets the
engine continue with the structural checks below. -/
def guardSection (env : GuardEnv) (pattern : Value) (input : Value) : Except Err Bool :=
  if !TYPESmem pattern then
    if isType "Promise" pattern then pure true
    else if isType "Function" pattern then
      match pattern with
      | .fn i =>
        let guardResult := env i input
        if !isType "Boolean" guardResult then
          .error (.invariantFault "guard function does not return a Boolean")
        else pure (truthy guardResult)
      | _ => pure false
    else pure false
  else pure false

/-- The four mutually recursive functions of the acceptance engine,
bundled so that the recursion is plainly structural on the fuel (every
cross-call steps to the bundle one fuel level down, which keeps each
definition computable by the kernel). -/
structure EngineFns where
  isPatternAcceptableF : List Rule → Nat → Nat → Value → ArgView → Except Err Bool
  ruleMatchesObjectInputF : Value → Nat → List Rule → Nat → Value → Except Err Bool
  propertyNameRouteF : Value → List String → Nat → List Rule → Nat → Except Err Bool
  anyFieldSatisfiesF : List Rule → Nat → ArgView → Nat → List (String × Value) → Except Err Bool

/-- One fuel level of the acceptance engine; the named wrappers
`isPatternAcceptable`, `ruleMatchesObjectInput`, `propertyNameRoute` and
`anyFieldSatisfies` below carry the source correspondence. -/
def engineGo (env : GuardEnv) : Nat → EngineFns
  | 0 =>
    { isPatternAcceptableF := fun _ _ _ _ _ => .error .fuelExhausted
      ruleMatchesObjectInputF := fun _ _ _ _ _ => .error .fuelExhausted
      propertyNameRouteF := fun _ _ _ _ _ => .error .fuelExhausted
      anyFieldSatisfiesF := fun _ _ _ _ _ => .error .fuelExhausted }
  | fuel + 1 =>
    { isPatternAcceptableF := fun rules ruleIndex inputIndex input reflectedArg =>
        match customTypeNamesSection reflectedArg input with
        | .error e => .error e
        | .ok true => pure true
        | .ok false =>
          let pattern := reflectedArg.pattern.getD Value.undef
          match guardSection env pattern input with
          | .error e => .error e
          | .ok true => pure true
          | .ok false =>
            if isArrayLike input && !isType "String" input then
              ruleMatchesArrayInput (arrayElemsOf input) inputIndex rules ruleIndex pattern
            else if isType "Date" input && strictEq (.ctor .Date) pattern then pure true
            else if isType "Object" input then
              (engineGo env fuel).ruleMatchesObjectInputF input inputIndex rules ruleIndex pattern
            else if isFloat input then pure (isEqual pattern input)
            else if isType "Number" input then
              if strictEq (.ctor .Number) pattern then
                match otherRuleMatchesNumberLiteral rules inputIndex input with
                | .error e => .error e
                | .ok true => pure false
                | .ok false => pure true
              else pure (strictEq input pattern)
            else if (isType "Function" input || isType "GeneratorFunction" input) &&
                strictEq (.ctor .Function) pattern then pure true
            else if isType "Boolean" input then
              pure (strictEq (.ctor .Boolean) pattern || strictEq pattern input)
            else if isType "String" input then
              if strictEq (.ctor .String) pattern then
                match otherRuleMatchesStringLiteral rules inputIndex input with
                | .error e => .error e
                | .ok true => pure false
                | .ok false => pure true
              else pure (strictEq pattern (jsToString input))
            else if isType "Error" input then pure (strictEq (.ctor .Error) pattern)
            else if isType "Null" input then pure (strictEq input pattern)
            else if isType "Undefined" input then pure (strictEq input pattern)
            else if isType "RegExp" input then pure (strictEq (.ctor .RegExp) pattern)
            else pure false
      ruleMatchesObjectInputF := fun objectInput inputIndex rules ruleIndex objectPattern =>
        let desiredKeys := objectKeysOf objectInput
        let inputSize := desiredKeys.length
        match collectBestFitRules rules inputIndex inputSize with
        | .error e => .error e
        | .ok bestFitRules =>
          if strictEq (.ctor .Object) objectPattern then
            pure (!(bestFitRules.any fun b => decide (b.index > ruleIndex)))
          else if isType "Object" objectPattern then
            let patternKeys := objectKeysOf objectPattern
            if patternKeys.length = 0 then
              pure (isEqual objectPattern objectInput)
            else if patternKeys.length ≤ inputSize then
              match maximumSize bestFitRules with
              | none => .error (.typeError "cannot read size of undefined")
              | some bestFitSize =>
                if (bestFitRules.filter fun b => decide (b.size ≥ bestFitSize)).any
                    (fun b => decide (b.index = ruleIndex)) then
                  pure (patternKeys.all fun key =>
                    isEqual (objectGet objectPattern key) (objectGet objectInput key))
                else
                  (engineGo env fuel).propertyNameRouteF objectInput desiredKeys inputIndex
                    rules ruleIndex
            else pure false
          else
            (engineGo env fuel).propertyNameRouteF objectInput desiredKeys inputIndex
              rules ruleIndex
      propertyNameRouteF := fun objectInput desiredKeys inputIndex rules ruleIndex =>
        match getRule rules ruleIndex with
        | .error e => .error e
        | .ok rule =>
          match getReflectedArg rule inputIndex with
          | .error e => .error e
          | .ok reflectedArg =>
            if desiredKeys.contains reflectedArg.argName then
              (engineGo env fuel).anyFieldSatisfiesF rules ruleIndex reflectedArg.view 0
                (objectFieldsOf objectInput)
            else pure false
      anyFieldSatisfiesF := fun rules ruleIndex reflectedArg index fields =>
        match fields with
        | [] => pure false
        | (_, v) :: rest =>
          match (engineGo env fuel).isPatternAcceptableF rules ruleIndex index v reflectedArg with
          | .error e => .error e
          | .ok true => pure true
          | .ok false =>
            (engineGo env fuel).anyFieldSatisfiesF rules ruleIndex reflectedArg (index + 1) rest }

/-- match.js `isPatternAcceptable` (lines 442-647): decides, in the
context of the full rule list, whether the pattern carried by a
reflected argument accepts one input value.  The custom-type check and
the guard check run first and may accept on their own; otherwise the
input's kind dispatches to the structural branches, each the exact image
of the corresponding source branch (the chains of guarded early returns
become nested conditionals; branches whose remaining checks can never
fire for that input kind are collapsed to the value the source returns
at line 646). -/
def isPatternAcceptable (env : GuardEnv) (fuel : Nat) (rules : List Rule)
    (ruleIndex inputIndex : Nat) (input : Value) (reflectedArg : ArgView) : Except Err Bool :=
  (engineGo env fuel).isPatternAcceptableF rules ruleIndex inputIndex input reflectedArg

/-- match.js `ruleMatchesObjectInput` (lines 176-269): the object
specificity resolution.  The candidate collection runs first (and can
throw); a generic `Object` pattern accepts iff no collected candidate
sits at a later rule index; a concrete object pattern with no keys
requires deep equality with the input; one with at most as many keys as
the input must be among the candidates tied at the maximal key count and
then have every declared key deep-equal the input's value, while a rule
not among them falls through — like every pattern that is not
object-typed — to the property-name destructuring route; a pattern with
more keys than the input rejects. -/
def ruleMatchesObjectInput (env : GuardEnv) (fuel : Nat) (objectInput : Value)
    (inputIndex : Nat) (rules : List Rule) (ruleIndex : Nat) (objectPattern : Value) :
    Except Err Bool :=
  (engineGo env fuel).ruleMatchesObjectInputF objectInput inputIndex rules ruleIndex objectPattern

/-- match.js lines 246-268: when the object input's keys include the
declared parameter name of the current rule's argument, accept iff some
own property value of the input recursively satisfies that argument's
pattern (this is the documented destructure-by-parameter-name feature);
otherwise reject. -/
def propertyNameRoute (env : GuardEnv) (fuel : Nat) (objectInput : Value)
    (desiredKeys : List String) (inputIndex : Nat) (rules : List Rule) (ruleIndex : Nat) :
    Except Err Bool :=
  (engineGo env fuel).propertyNameRouteF objectInput desiredKeys inputIndex rules ruleIndex

/-- The `Object.keys(objectInput).some((objectInputKey, index) => ...)`
loop of match.js lines 251-263: each own property value of the input is
tested against the reflected argument, with the enumeration index passed
as the input index. -/
def anyFieldSatisfies (env : GuardEnv) (fuel : Nat) (rules : List Rule) (ruleIndex : Nat)
    (reflectedArg : ArgView) (index : Nat) (fields : List (String × Value)) : Except Err Bool :=
  (engineGo env fuel).anyFieldSatisfiesF rules ruleIndex reflectedArg index fields

/-- The body of the `every` callback in match.js `allInputsSatisfyRule`
(lines 133-172): the per-position acceptance check.  A destructured
parameter accepts any input outright; a union pattern accepts when some
alternative does (each alternative is wrapped in a sub-reflected-arg
whose `customTypeNames` key is present but `undefined`); a plain pattern
defers to `isPatternAcceptable`; a parameter with no pattern accepts. -/
def inputSatisfies (env : GuardEnv) (fuel : Nat) (rules : List Rule) (ruleIndex : Nat)
    (rule : Rule) (input : Value) (inputIndex : Nat) : Except Err Bool :=
  match getReflectedArg rule inputIndex with
  | .error e => .error e
  | .ok reflectedArg =>
    if reflectedArg.isDestructured = true then pure true
    else
      match reflectedArg.subPatterns with
      | some subPatterns =>
        anyExc (fun subPattern =>
          isPatternAcceptable env fuel rules ruleIndex inputIndex input
            { pattern := some subPattern, customPresent := true, customTypeNames := none })
          subPatterns
      | none =>
        match reflectedArg.pattern with
        | some _ => isPatternAcceptable env fuel rules ruleIndex inputIndex input reflectedArg.view
        | none => pure true

/-- match.js `allInputsSatisfyRule` (lines 127-173): every input position
must satisfy the rule's reflected argument at that position. -/
def allInputsSatisfyRule (env : GuardEnv) (fuel : Nat) (rule : Rule) (inputs : List Value)
    (ruleIndex : Nat) (rules : List Rule) : Except Err Bool :=
  allIdxExcGo (fun input inputIndex => inputSatisfies env fuel rules ruleIndex rule input inputIndex)
    0 inputs

/-- The result of one resolution: the body of `rules[ruleIndex]` applied
to the input tuple, the wildcard rule's body applied to no arguments
(lib/index.js line 117 calls it as `expression()`), or the implicit
`undefined` of falling off the end with no wildcard. -/
inductive Outcome where
  | matched (ruleIndex : Nat) (args : List Value)
  | defaulted
  | noMatch

/-- `Array.prototype.findIndex` over a pure predicate, tracking the
current index; `none` embeds JS `-1`. -/
def findIndexGo {α : Type} (p : α → Bool) : Nat → List α → Option Nat
  | _, [] => none
  | i, x :: xs => if p x then some i else findIndexGo p (i + 1) xs

/-- lib/index.js lines 39-67: the index of the first rule with a
parameter named exactly `_` (the warnings emitted along the way do not
change the result). -/
def indexOfWildcardRule (rules : List Rule) : Option Nat :=
  findIndexGo (fun rule => rule.allReflectedArgs.any fun ra => ra.argName == "_") 0 rules

/-- The rule loop of lib/index.js `wavematch` (lines 102-114): scan rules
in declaration order, skip the wildcard's index, skip a rule whose
declared arity differs from the number of inputs, and return on the
first rule all of whose positions accept. -/
def resolveGo (env : GuardEnv) (fuel : Nat) (inputs : List Value) (rules : List Rule)
    (wIdx : Option Nat) : Nat → List Rule → Except Err Outcome
  | _, [] => pure (if wIdx.isSome then Outcome.defaulted else Outcome.noMatch)
  | i, rule :: rest =>
    if some i ≠ wIdx ∧ rule.arity = inputs.length then
      match allInputsSatisfyRule env fuel rule inputs i rules with
      | .error e => .error e
      | .ok true => pure (Outcome.matched i inputs)
      | .ok false => resolveGo env fuel inputs rules wIdx (i + 1) rest
    else resolveGo env fuel inputs rules wIdx (i + 1) rest

/-- lib/index.js `wavematch` lines 102-119 with the match.js acceptance
engine as `doesMatch`: resolve an input tuple against the rule list;
after the loop, a wildcard (if one exists) is applied to no arguments. -/
def resolve (env : GuardEnv) (fuel : Nat) (inputs : List Value) (rules : List Rule) :
    Except Err Outcome :=
  resolveGo env fuel inputs rules (indexOfWildcardRule rules) 0 rules

/-- Rule `i` is accepted by the resolution loop: it is not the wildcard's
index, exists, has the arity of the input tuple, and all of its
positions accept. -/
def AcceptsAt (env : GuardEnv) (fuel : Nat) (inputs : List Value) (rules : List Rule)
    (i : Nat) : Prop :=
  some i ≠ indexOfWildcardRule rules ∧
    ∃ r, rules[i]? = some r ∧ r.arity = inputs.length ∧
      allInputsSatisfyRule env fuel r inputs i rules = .ok true

/-- Wellformedness of a rule set at one position: every non-wildcard rule
declares a reflected argument there (the source dereferences
`rule.allReflectedArgs[inputIndex]` for every non-wildcard rule during
its cross-rule scans, so a rule missing the position would throw). -/
def rulesWFAt (rules : List Rule) (inputIndex : Nat) : Bool :=
  rules.all fun r =>
    ruleIsWildcard r ||
      (match r.allReflectedArgs[inputIndex]? with
       | some _ => true
       | none => false)

/-- Some non-wildcard rule's pattern at this position is a number
literal equal to `q` (the spec's "non-wildcard rule whose pattern at
this position is a Literal exactly equal to input"). -/
def hasNumberLiteralAt (rules : List Rule) (inputIndex : Nat) (q : ℚ) : Bool :=
  rules.any fun r =>
    !ruleIsWildcard r &&
      (match r.allReflectedArgs[inputIndex]? with
       | some ra =>
         match ra.pattern with
         | some (.num w) => decide (w = q)
         | _ => false
       | none => false)

/-- Some non-wildcard rule's pattern at this position is a string
literal equal to `s`. -/
def hasStringLiteralAt (rules : List Rule) (inputIndex : Nat) (s : String) : Bool :=
  rules.any fun r =>
    !ruleIsWildcard r &&
      (match r.allReflectedArgs[inputIndex]? with
       | some ra =>
         match ra.pattern with
         | some (.str w) => decide (w = s)
         | _ => false
       | none => false)

/-- One rule's contribution to the object-only restriction: at this
position it declares an argument whose pattern is absent, an object
literal, or the generic `Object` constructor, with no union
alternatives. -/
def objOnlyArg (inputIndex : Nat) (r : Rule) : Bool :=
  match r.allReflectedArgs[inputIndex]? with
  | some ra =>
    (match ra.subPatterns with
     | none => true
     | some _ => false) &&
    (match ra.pattern with
     | none => true
     | some (.obj _) => true
     | some (.ctor .Object) => true
     | some _ => false)
  | none => false

/-- Restriction under which the object-specificity claims are settled:
every non-wildcard rule's pattern at this position is an object shape or
the generic `Object` constructor (or absent), with no unions.  Outside
this restriction the engine's candidate collection also gathers arrays,
dates and arbitrary union alternatives, which the claims' wording does
not cover. -/
def objOnlyAt (rules : List Rule) (inputIndex : Nat) : Bool :=
  rules.all fun r => ruleIsWildcard r || objOnlyArg inputIndex r

/-- Spec, object specificity step 1: collect, across all non-wildcard
rules, every object-shape pattern at this position whose declared key
count is at most `K`, recording `(keyCount, ruleIndex)`. -/
def shapeCandidatesGo (inputIndex K : Nat) : Nat → List Rule → List BestFit
  | _, [] => []
  | i, r :: rest =>
    (if ruleIsWildcard r then []
     else
       match r.allReflectedArgs[inputIndex]? with
       | some ra =>
         match ra.pattern with
         | some (.obj kvs) => if kvs.length ≤ K then [⟨kvs.length, i⟩] else []
         | _ => []
       | none => []) ++ shapeCandidatesGo inputIndex K (i + 1) rest

/-- The spec's collected object-shape candidates for an input with `K`
keys. -/
def shapeCandidates (rules : List Rule) (inputIndex K : Nat) : List BestFit :=
  shapeCandidatesGo inputIndex K 0 rules

/-- The claim's rejection condition for a generic `Object` pattern at
rule index `ruleIndex`: some non-wildcard rule at a strictly later index
offers an object shape at this position with key count at most `K`. -/
def laterShapeCandidateExists (rules : List Rule) (inputIndex K ruleIndex : Nat) : Bool :=
  (shapeCandidates rules inputIndex K).any fun c => decide (c.index > ruleIndex)

/-- The claim's best-fit condition: the rule's index is among the
collected shape candidates tied at the maximum key count. -/
def amongTiedAtMax (cands : List BestFit) (ruleIndex : Nat) : Bool :=
  match maximumSize cands with
  | none => false
  | some m => (cands.filter fun b => decide (b.size ≥ m)).any fun b => decide (b.index = ruleIndex)

/-- One rule's contribution to collection safety: it declares an
argument at this position whose pattern is not the `null` literal and
whose union alternatives (if any) contain neither `null` nor
`undefined` — the values on which the collection's `Object.keys` call
would throw. -/
def collectSafeArg (inputIndex : Nat) (r : Rule) : Bool :=
  match r.allReflectedArgs[inputIndex]? with
  | some ra =>
    (match ra.pattern with
     | some .null => false
     | _ => true) &&
    (match ra.subPatterns with
     | none => true
     | some subs => subs.all fun sp =>
         match sp with
         | .null => false
         | .undef => false
         | _ => true)
  | none => false

/-- Safety of the candidate collection at a position: it completes
without throwing for every non-wildcard rule. -/
def collectSafeAt (rules : List Rule) (inputIndex : Nat) : Bool :=
  rules.all fun r => ruleIsWildcard r || collectSafeArg inputIndex r

/-- Primitive input kinds (number, string, boolean, `null`,
`undefined`): the kinds for which a failed guard has no structural
fallthrough left to accept through. -/
def isPrimitiveValue : Value → Bool
  | .num _ => true
  | .str _ => true
  | .bool _ => true
  | .null => true
  | .undef => true
  | _ => false

/-- A guard environment whose functions all return `undefined`; used by
concrete witnesses that never apply a guard. -/
def env0 : GuardEnv := fun _ _ => Value.undef

/-- A reflected argument with name `name` and evaluated pattern `p`
(what `reflectArguments` produces for `(name = pattern) => ...`). -/
def namedArg (name : String) (p : Value) : ReflectedArg :=
  { argName := name, isDestructured := false, pattern := some p,
    customTypeNames := none, subPatterns := none }

/-- A unary rule with one named, patterned parameter. -/
def plainRule (name : String) (p : Value) : Rule := ⟨[namedArg name p]⟩

/-- The wildcard rule `_ => ...`: one parameter named `_`, no default. -/
def wildRule : Rule :=
  ⟨[{ argName := "_", isDestructured := false, pattern := none,
      customTypeNames := none, subPatterns := none }]⟩

/-- A unary rule with a destructured parameter, e.g.
`([head, ...rest]) => ...` (parse-function reports no argument name). -/
def destructuredRule : Rule :=
  ⟨[{ argName := "@@DESTRUCTURED", isDestructured := true, pattern := none,
      customTypeNames := none, subPatterns := none }]⟩

/-- The reflected argument `reflectArguments` produces for a custom-type
pattern `(name = TypeName) => ...`: evaluating the PascalCase identifier
throws a ReferenceError, so the pattern stays the source string and the
name is recorded in `customTypeNames`. -/
def customArg (name typeName : String) : ReflectedArg :=
  { argName := name, isDestructured := false, pattern := some (.str typeName),
    customTypeNames := some [typeName], subPatterns := none }

/-- The JS number 4.2 (the rational 21/5). -/
def fourPointTwo : ℚ := Rat.mk' 21 5

/-- The JS number 4.3 (the rational 43/10). -/
def fourPointThree : ℚ := Rat.mk' 43 10

/-- The object-specificity example rule set
`[{x:1} => A, {x:1,y:2} => B, _ => C]`. -/
def c2Rules : List Rule :=
  [plainRule "o" (.obj [("x", .num 1)]),
   plainRule "o" (.obj [("x", .num 1), ("y", .num 2)]),
   wildRule]

/-- Rule set falsifying the best-fit "only if": the first rule's
parameter is named like an input key, so the property-name route can
accept it although it is not among the best-fit candidates. -/
def c2cexRules : List Rule :=
  [plainRule "x" (.obj [("x", .num 1)]),
   plainRule "o" (.obj [("p", .num 1), ("q", .num 2)]),
   wildRule]

/-- The input `{x: {x:1}, y: 9}` for the best-fit counterexample. -/
def c2cexInput : Value := .obj [("x", .obj [("x", .num 1)]), ("y", .num 9)]

/-- The ordering example rule set `[Object => B, {x:1} => A, _ => C]`. -/
def c3RulesGenericFirst : List Rule :=
  [plainRule "o" (.ctor .Object), plainRule "o" (.obj [("x", .num 1)]), wildRule]

/-- The ordering example rule set `[{x:1} => A, Object => B, _ => C]`. -/
def c3RulesShapeFirst : List Rule :=
  [plainRule "o" (.obj [("x", .num 1)]), plainRule "o" (.ctor .Object), wildRule]

/-- Rule set falsifying the claim's "only object shapes reject the
generic": the later rule's pattern is an array literal, which the
collection also gathers (`typeof [] === 'object'`), so the generic
`Object` at index 0 rejects although no later *object shape* exists. -/
def c3cexRules : List Rule :=
  [plainRule "o" (.ctor .Object), plainRule "a" (.arr [.num 9]), wildRule]

/-- Two concrete array-destructuring rules and no wildcard: the rule set
has exactly two rules, so the engine prefix-matches, but it does not
contain exactly one non-wildcard rule. -/
def c4cexRules : List Rule :=
  [plainRule "a" (.arr [.num 1]), plainRule "b" (.arr [.num 1, .num 2])]

/-- A guard environment whose function 0 tests `value === 1` — except
that it is applied structurally through `isEqual`, mirroring the guard
`$ => $ === 1` on primitive arguments. -/
def c8Env : GuardEnv := fun _ v => .bool (isEqual v (.num 1))

/-- The guard rule set `[(g = $ => $ === 1) => A, _ => B]`. -/
def c8Rules : List Rule := [plainRule "g" (.fn 0), wildRule]

/-- The input `{g: 1}` on which the guard returns `false` and yet the
rule accepts through the property-name destructuring fallthrough. -/
def c8Input : Value := .obj [("g", .num 1)]

/-- The custom-type rule set `[(p = Person) => A, _ => B]`. -/
def c9Rules : List Rule := [⟨[customArg "p" "Person"]⟩, wildRule]

/-- An instance of class `X` (no parent) with a field `p` holding a
`Person` instance; the field is named like the rule's parameter. -/
def c9cexInput : Value := .instOf "X" [] [("p", .instOf "Person" [] [])]

/-- Spec-side reading of the ArrayShape clause: the prefix comparison is
reserved for rule sets containing exactly one non-wildcard rule; every
other rule set requires the whole input sequence to deep-equal the
pattern.  To be compared with `ruleMatchesArrayInput`, whose test is
`rules.length === 2`. -/
def specArrayShapeAccepts (rules : List Rule) (patternElems arrayInput : List Value) : Bool :=
  if arrayInput.length = 0 then isEqual (.arr patternElems) (.arr arrayInput)
  else if patternElems.length > arrayInput.length then false
  else if patternElems.length = 0 then false
  else if (rules.filter fun r => !ruleIsWildcard r).length = 1 then
    everyWithIndexGo
      (fun destructuredArrayValue i => isEqual destructuredArrayValue (arrayInput.getD i .undef))
      0 patternElems
  else isEqual (.arr patternElems) (.arr arrayInput)

theorem isPatternAcceptable_step (env : GuardEnv) (fuel : Nat) (rules : List Rule)
    (ruleIndex inputIndex : Nat) (input : Value) (reflectedArg : ArgView) :
    isPatternAcceptable env (fuel + 1) rules ruleIndex inputIndex input reflectedArg =
      (match customTypeNamesSection reflectedArg input with
       | .error e => .error e
       | .ok true => pure true
       | .ok false =>
         let pattern := reflectedArg.pattern.getD Value.undef
         match guardSection env pattern input with
         | .error e => .error e
         | .ok true => pure true
         | .ok false =>
           if isArrayLike input && !isType "String" input then
             ruleMatchesArrayInput (arrayElemsOf input) inputIndex rules ruleIndex pattern
           else if isType "Date" input && strictEq (.ctor .Date) pattern then pure true
           else if isType "Object" input then
             ruleMatchesObjectInput env fuel input inputIndex rules ruleIndex pattern
           else if isFloat input then pure (isEqual pattern input)
           else if isType "Number" input then
             if strictEq (.ctor .Number) pattern then
               match otherRuleMatchesNumberLiteral rules inputIndex input with
               | .error e => .error e
               | .ok true => pure false
               | .ok false => pure true
             else pure (strictEq input pattern)
           else if (isType "Function" input || isType "GeneratorFunction" input) &&
               strictEq (.ctor .Function) pattern then pure true
           else if isType "Boolean" input then
             pure (strictEq (.ctor .Boolean) pattern || strictEq pattern input)
           else if isType "String" input then
             if strictEq (.ctor .String) pattern then
               match otherRuleMatchesStringLiteral rules inputIndex input with
               | .error e => .error e
               | .ok true => pure false
               | .ok false => pure true
             else pure (strictEq pattern (jsToString input))
           else if isType "Error" input then pure (strictEq (.ctor .Error) pattern)
           else if isType "Null" input then pure (strictEq input pattern)
           else if isType "Undefined" input then pure (strictEq input pattern)
           else if isType "RegExp" input then pure (strictEq (.ctor .RegExp) pattern)
           else pure false) := rfl

theorem ruleMatchesObjectInput_step (env : GuardEnv) (fuel : Nat) (objectInput : Value)
    (inputIndex : Nat) (rules : List Rule) (ruleIndex : Nat) (objectPattern : Value) :
    ruleMatchesObjectInput env (fuel + 1) objectInput inputIndex rules ruleIndex objectPattern =
      (let desiredKeys := objectKeysOf objectInput
       let inputSize := desiredKeys.length
       match collectBestFitRules rules inputIndex inputSize with
       | .error e => .error e
       | .ok bestFitRules =>
         if strictEq (.ctor .Object) objectPattern then
           pure (!(bestFitRules.any fun b => decide (b.index > ruleIndex)))
         else if isType "Object" objectPattern then
           let patternKeys := objectKeysOf objectPattern
           if patternKeys.length = 0 then
             pure (isEqual objectPattern objectInput)
           else if patternKeys.length ≤ inputSize then
             match maximumSize bestFitRules with
             | none => .error (.typeError "cannot read size of undefined")
             | some bestFitSize =>
               if (bestFitRules.filter fun b => decide (b.size ≥ bestFitSize)).any
                   (fun b => decide (b.index = ruleIndex)) then
                 pure (patternKeys.all fun key =>
                   isEqual (objectGet objectPattern key) (objectGet objectInput key))
               else
                 propertyNameRoute env fuel objectInput desiredKeys inputIndex rules ruleIndex
           else pure false
         else
           propertyNameRoute env fuel objectInput desiredKeys inputIndex rules ruleIndex) := rfl

theorem propertyNameRoute_step (env : GuardEnv) (fuel : Nat) (objectInput : Value)
    (desiredKeys : List String) (inputIndex : Nat) (rules : List Rule) (ruleIndex : Nat) :
    propertyNameRoute env (fuel + 1) objectInput desiredKeys inputIndex rules ruleIndex =
      (match getRule rules ruleIndex with
       | .error e => .error e
       | .ok rule =>
         match getReflectedArg rule inputIndex with
         | .error e => .error e
         | .ok reflectedArg =>
           if desiredKeys.contains reflectedArg.argName then
             anyFieldSatisfies env fuel rules ruleIndex reflectedArg.view 0
               (objectFieldsOf objectInput)
           else pure false) := rfl

theorem anyFieldSatisfies_step (env : GuardEnv) (fuel : Nat) (rules : List Rule)
    (ruleIndex : Nat) (reflectedArg : ArgView) (index : Nat)
    (fields : List (String × Value)) :
    anyFieldSatisfies env (fuel + 1) rules ruleIndex reflectedArg index fields =
      (match fields with
       | [] => pure false
       | (_, v) :: rest =>
         match isPatternAcceptable env fuel rules ruleIndex index v reflectedArg with
         | .error e => .error e
         | .ok true => pure true
         | .ok false => anyFieldSatisfies env fuel rules ruleIndex reflectedArg (index + 1) rest) :=
  rfl

-- ### C10

theorem C10_destructured_accepts (env : GuardEnv) (fuel : Nat) (rules : List Rule)
    (ruleIndex : Nat) (rule : Rule) (input : Value) (inputIndex : Nat) (ra : ReflectedArg)
    (hget : rule.allReflectedArgs[inputIndex]? = some ra)
    (hdes : ra.isDestructured = true) :
    inputSatisfies env fuel rules ruleIndex rule input inputIndex = .ok true := by
  simp [inputSatisfies, getReflectedArg, hget, hdes, pure, Except.pure]

theorem C10_witness :
    destructuredRule.allReflectedArgs[0]? =
      some { argName := "@@DESTRUCTURED", isDestructured := true, pattern := none,
             customTypeNames := none, subPatterns := none } ∧
    inputSatisfies env0 0 [] 0 destructuredRule (.num 7) 0 = .ok true :=
  ⟨rfl, C10_destructured_accepts env0 0 [] 0 destructuredRule (.num 7) 0 _ rfl rfl⟩

-- ### number dispatch lemmas

theorem iPA_num_literal (env : GuardEnv) (fuel : Nat) (rules : List Rule)
    (ruleIndex inputIndex : Nat) (q w : ℚ) (hden : q.den = 1) :
    isPatternAcceptable env (fuel + 1) rules ruleIndex inputIndex (.num q)
      { pattern := some (.num w), customPresent := false, customTypeNames := none } =
      .ok (decide (q = w)) := by
  simp [isPatternAcceptable, engineGo, customTypeNamesSection, guardSection, TYPESmem,
    isArrayLike, isType, jsTypeTag, isFloat, hden, strictEq, pure, Except.pure]

theorem iPA_num_generic (env : GuardEnv) (fuel : Nat) (rules : List Rule)
    (ruleIndex inputIndex : Nat) (q : ℚ) (hden : q.den = 1) :
    isPatternAcceptable env (fuel + 1) rules ruleIndex inputIndex (.num q)
      { pattern := some (.ctor .Number), customPresent := false, customTypeNames := none } =
      (match otherRuleMatchesNumberLiteral rules inputIndex (.num q) with
       | .error e => .error e
       | .ok true => pure false
       | .ok false => pure true) := by
  simp [isPatternAcceptable, engineGo, customTypeNamesSection, guardSection, TYPESmem,
    isArrayLike, isType, jsTypeTag, isFloat, hden, strictEq, pure, Except.pure]

theorem anyExc_eq_any {α : Type} (f : α → Except Err Bool) (g : α → Bool) :
    ∀ l : List α, (∀ x ∈ l, f x = .ok (g x)) → anyExc f l = .ok (l.any g) := by
  intro l
  induction l with
  | nil => intro _; simp [anyExc, pure, Except.pure]
  | cons x xs ih =>
    intro h
    have hx := h x (by simp)
    rw [anyExc, hx]
    cases hgx : g x with
    | true => simp [hgx, pure, Except.pure]
    | false =>
      simp only [List.any_cons, hgx, Bool.false_or]
      exact ih fun y hy => h y (by simp [hy])

theorem numberScan_eval (rules : List Rule) (inputIndex : Nat) (q : ℚ)
    (hwf : rulesWFAt rules inputIndex = true) :
    otherRuleMatchesNumberLiteral rules inputIndex (.num q) =
      .ok (hasNumberLiteralAt rules inputIndex q) := by
  rw [otherRuleMatchesNumberLiteral, hasNumberLiteralAt]
  apply anyExc_eq_any
  intro r hr
  rw [rulesWFAt, List.all_eq_true] at hwf
  have hwfr := hwf r hr
  by_cases hw : ruleIsWildcard r
  · simp [hw, pure, Except.pure]
  · simp only [hw, Bool.false_or] at hwfr
    cases harg : r.allReflectedArgs[inputIndex]? with
    | none => rw [harg] at hwfr; simp at hwfr
    | some ra =>
      simp only [hw, Bool.not_false, Bool.true_and, getReflectedArg, harg, pure, Except.pure,
        Bool.false_eq_true, if_false, ite_false]
      cases hp : ra.pattern with
      | none => simp [hp, pure, Except.pure]
      | some p =>
        cases p <;> simp [hp, isType, jsTypeTag, strictEq, pure, Except.pure]

theorem stringScan_eval (rules : List Rule) (inputIndex : Nat) (s : String)
    (hwf : rulesWFAt rules inputIndex = true) :
    otherRuleMatchesStringLiteral rules inputIndex (.str s) =
      .ok (hasStringLiteralAt rules inputIndex s) := by
  rw [otherRuleMatchesStringLiteral, hasStringLiteralAt]
  apply anyExc_eq_any
  intro r hr
  rw [rulesWFAt, List.all_eq_true] at hwf
  have hwfr := hwf r hr
  by_cases hw : ruleIsWildcard r
  · simp [hw, pure, Except.pure]
  · simp only [hw, Bool.false_or] at hwfr
    cases harg : r.allReflectedArgs[inputIndex]? with
    | none => rw [harg] at hwfr; simp at hwfr
    | some ra =>
      simp only [hw, Bool.not_false, Bool.true_and, getReflectedArg, harg, pure, Except.pure,
        Bool.false_eq_true, if_false, ite_false]
      cases hp : ra.pattern with
      | none => simp [hp, pure, Except.pure]
      | some p =>
        cases p <;> simp [hp, isType, jsTypeTag, strictEq, pure, Except.pure]

theorem iPA_str_literal (env : GuardEnv) (fuel : Nat) (rules : List Rule)
    (ruleIndex inputIndex : Nat) (s w : String) :
    isPatternAcceptable env (fuel + 1) rules ruleIndex inputIndex (.str s)
      { pattern := some (.str w), customPresent := false, customTypeNames := none } =
      .ok (decide (w = s)) := by
  simp [isPatternAcceptable, engineGo, customTypeNamesSection, guardSection, TYPESmem,
    isArrayLike, isType, jsTypeTag, isFloat, strictEq, jsToString, pure, Except.pure]

theorem iPA_str_generic (env : GuardEnv) (fuel : Nat) (rules : List Rule)
    (ruleIndex inputIndex : Nat) (s : String) :
    isPatternAcceptable env (fuel + 1) rules ruleIndex inputIndex (.str s)
      { pattern := some (.ctor .String), customPresent := false, customTypeNames := none } =
      (match otherRuleMatchesStringLiteral rules inputIndex (.str s) with
       | .error e => .error e
       | .ok true => pure false
       | .ok false => pure true) := by
  simp [isPatternAcceptable, engineGo, customTypeNamesSection, guardSection, TYPESmem,
    isArrayLike, isType, jsTypeTag, isFloat, strictEq, pure, Except.pure]

theorem allInputs_plainRule (env : GuardEnv) (fuel : Nat) (rules : List Rule) (i : Nat)
    (name : String) (p : Value) (input : Value) :
    allInputsSatisfyRule env fuel (plainRule name p) [input] i rules =
      isPatternAcceptable env fuel rules i 0 input
        { pattern := some p, customPresent := false, customTypeNames := none } := by
  cases h : isPatternAcceptable env fuel rules i 0 input
      { pattern := some p, customPresent := false, customTypeNames := none } with
  | error e =>
    simp [allInputsSatisfyRule, allIdxExcGo, inputSatisfies, getReflectedArg, plainRule,
      namedArg, ReflectedArg.view, h, pure, Except.pure]
  | ok b =>
    cases b <;>
      simp [allInputsSatisfyRule, allIdxExcGo, inputSatisfies, getReflectedArg, plainRule,
        namedArg, ReflectedArg.view, h, pure, Except.pure]

theorem iPA_num_generic_float (env : GuardEnv) (fuel : Nat) (rules : List Rule)
    (ruleIndex inputIndex : Nat) (q : ℚ) (hden : q.den ≠ 1) :
    isPatternAcceptable env (fuel + 1) rules ruleIndex inputIndex (.num q)
      { pattern := some (.ctor .Number), customPresent := false, customTypeNames := none } =
      .ok false := by
  simp [isPatternAcceptable, engineGo, customTypeNamesSection, guardSection, TYPESmem,
    isArrayLike, isType, jsTypeTag, isFloat, hden, strictEq, isEqual, pure, Except.pure]

/-- C1: for an integer input, a non-wildcard rule holding an equal number
literal at the same position forces every generic `Number` constructor
pattern to reject, independent of order; the analogous preemption holds
for strings; consequently, in the canonical literal/generic rule pairs
(in either order, with a trailing wildcard) the literal rule's body is
the one selected. -/
theorem C1_literal_preempts_generic :
    (∀ (env : GuardEnv) (fuel : Nat) (rules : List Rule) (ruleIndex inputIndex : Nat) (q : ℚ),
      rulesWFAt rules inputIndex = true → q.den = 1 →
      hasNumberLiteralAt rules inputIndex q = true →
      isPatternAcceptable env (fuel + 1) rules ruleIndex inputIndex (.num q)
        { pattern := some (.ctor .Number), customPresent := false, customTypeNames := none } =
        .ok false) ∧
    (∀ (env : GuardEnv) (fuel : Nat) (rules : List Rule) (ruleIndex inputIndex : Nat)
      (s : String),
      rulesWFAt rules inputIndex = true →
      hasStringLiteralAt rules inputIndex s = true →
      isPatternAcceptable env (fuel + 1) rules ruleIndex inputIndex (.str s)
        { pattern := some (.ctor .String), customPresent := false, customTypeNames := none } =
        .ok false) ∧
    (∀ (env : GuardEnv) (fuel : Nat) (q : ℚ), q.den = 1 →
      resolve env (fuel + 1) [.num q]
        [plainRule "n" (.num q), plainRule "n" (.ctor .Number), wildRule] =
        .ok (.matched 0 [.num q])) ∧
    (∀ (env : GuardEnv) (fuel : Nat) (q : ℚ), q.den = 1 →
      resolve env (fuel + 1) [.num q]
        [plainRule "n" (.ctor .Number), plainRule "n" (.num q), wildRule] =
        .ok (.matched 1 [.num q])) ∧
    (∀ (env : GuardEnv) (fuel : Nat) (s : String),
      resolve env (fuel + 1) [.str s]
        [plainRule "s" (.str s), plainRule "s" (.ctor .String), wildRule] =
        .ok (.matched 0 [.str s])) ∧
    (∀ (env : GuardEnv) (fuel : Nat) (s : String),
      resolve env (fuel + 1) [.str s]
        [plainRule "s" (.ctor .String), plainRule "s" (.str s), wildRule] =
        .ok (.matched 1 [.str s])) := by
  refine ⟨?_, ?_, ?_, ?_, ?_, ?_⟩
  · intro env fuel rules ruleIndex inputIndex q hwf hden hlit
    rw [iPA_num_generic env fuel rules ruleIndex inputIndex q hden,
      numberScan_eval rules inputIndex q hwf, hlit]
    rfl
  · intro env fuel rules ruleIndex inputIndex s hwf hlit
    rw [iPA_str_generic env fuel rules ruleIndex inputIndex s,
      stringScan_eval rules inputIndex s hwf, hlit]
    rfl
  · intro env fuel q hden
    have h0 := allInputs_plainRule env (fuel + 1)
      [plainRule "n" (.num q), plainRule "n" (.ctor .Number), wildRule] 0 "n" (.num q) (.num q)
    rw [iPA_num_literal _ _ _ _ _ _ _ hden] at h0
    simp [plainRule, namedArg, wildRule] at h0
    simp [resolve, indexOfWildcardRule, findIndexGo, ruleIsWildcard, plainRule, namedArg,
      wildRule, resolveGo, Rule.arity, h0, pure, Except.pure]
  · intro env fuel q hden
    have hwf : rulesWFAt [plainRule "n" (.ctor .Number), plainRule "n" (.num q), wildRule] 0
        = true := rfl
    have hlit : hasNumberLiteralAt
        [plainRule "n" (.ctor .Number), plainRule "n" (.num q), wildRule] 0 q = true := by
      simp [hasNumberLiteralAt, plainRule, namedArg, wildRule, ruleIsWildcard]
    have h0 := allInputs_plainRule env (fuel + 1)
      [plainRule "n" (.ctor .Number), plainRule "n" (.num q), wildRule] 0 "n"
      (.ctor .Number) (.num q)
    rw [iPA_num_generic _ _ _ _ _ _ hden, numberScan_eval _ _ _ hwf, hlit] at h0
    have h1 := allInputs_plainRule env (fuel + 1)
      [plainRule "n" (.ctor .Number), plainRule "n" (.num q), wildRule] 1 "n" (.num q) (.num q)
    rw [iPA_num_literal _ _ _ _ _ _ _ hden] at h1
    simp [plainRule, namedArg, wildRule] at h0 h1
    simp [resolve, indexOfWildcardRule, findIndexGo, ruleIsWildcard, plainRule, namedArg,
      wildRule, resolveGo, Rule.arity, h0, h1, pure, Except.pure]
  · intro env fuel s
    have h0 := allInputs_plainRule env (fuel + 1)
      [plainRule "s" (.str s), plainRule "s" (.ctor .String), wildRule] 0 "s" (.str s) (.str s)
    rw [iPA_str_literal] at h0
    simp [plainRule, namedArg, wildRule] at h0
    simp [resolve, indexOfWildcardRule, findIndexGo, ruleIsWildcard, plainRule, namedArg,
      wildRule, resolveGo, Rule.arity, h0, pure, Except.pure]
  · intro env fuel s
    have hwf : rulesWFAt [plainRule "s" (.ctor .String), plainRule "s" (.str s), wildRule] 0
        = true := rfl
    have hlit : hasStringLiteralAt
        [plainRule "s" (.ctor .String), plainRule "s" (.str s), wildRule] 0 s = true := by
      simp [hasStringLiteralAt, plainRule, namedArg, wildRule, ruleIsWildcard]
    have h0 := allInputs_plainRule env (fuel + 1)
      [plainRule "s" (.ctor .String), plainRule "s" (.str s), wildRule] 0 "s"
      (.ctor .String) (.str s)
    rw [iPA_str_generic, stringScan_eval _ _ _ hwf, hlit] at h0
    have h1 := allInputs_plainRule env (fuel + 1)
      [plainRule "s" (.ctor .String), plainRule "s" (.str s), wildRule] 1 "s" (.str s) (.str s)
    rw [iPA_str_literal] at h1
    simp [plainRule, namedArg, wildRule] at h0 h1
    simp [resolve, indexOfWildcardRule, findIndexGo, ruleIsWildcard, plainRule, namedArg,
      wildRule, resolveGo, Rule.arity, h0, h1, pure, Except.pure]

theorem C1_witness :
    rulesWFAt [plainRule "n" (.num 3), plainRule "n" (.ctor .Number), wildRule] 0 = true ∧
    (3 : ℚ).den = 1 ∧
    hasNumberLiteralAt [plainRule "n" (.num 3), plainRule "n" (.ctor .Number), wildRule] 0 3
      = true ∧
    isPatternAcceptable env0 1 [plainRule "n" (.num 3), plainRule "n" (.ctor .Number), wildRule]
      1 0 (.num 3)
      { pattern := some (.ctor .Number), customPresent := false, customTypeNames := none } =
      .ok false ∧
    resolve env0 1 [.num 3] [plainRule "n" (.ctor .Number), plainRule "n" (.num 3), wildRule] =
      .ok (.matched 1 [.num 3]) ∧
    resolve env0 1 [.str "hi"]
      [plainRule "s" (.str "hi"), plainRule "s" (.ctor .String), wildRule] =
      .ok (.matched 0 [.str "hi"]) :=
  ⟨rfl, rfl, rfl, C1_literal_preempts_generic.1 env0 0 _ 1 0 3 rfl rfl rfl,
    C1_literal_preempts_generic.2.2.2.1 env0 0 3 rfl,
    C1_literal_preempts_generic.2.2.2.2.1 env0 0 "hi"⟩

/-- C5: the generic `Number` constructor pattern never accepts a
non-integer numeric input; the float literal `4.2` accepts exactly the
input `4.2` and rejects `4.0` (which is the same JS number as `4`) and
`4.3`; integer inputs are accepted by the generic `Number` pattern
whenever no equal number literal preempts it. -/
theorem C5_float_exclusion :
    (∀ (env : GuardEnv) (fuel : Nat) (rules : List Rule) (ruleIndex inputIndex : Nat) (q : ℚ),
      q.den ≠ 1 →
      isPatternAcceptable env (fuel + 1) rules ruleIndex inputIndex (.num q)
        { pattern := some (.ctor .Number), customPresent := false, customTypeNames := none } =
        .ok false) ∧
    (isPatternAcceptable env0 1 [] 0 0 (.num fourPointTwo)
      { pattern := some (.num fourPointTwo), customPresent := false, customTypeNames := none } =
      .ok true) ∧
    (isPatternAcceptable env0 1 [] 0 0 (.num 4)
      { pattern := some (.num fourPointTwo), customPresent := false, customTypeNames := none } =
      .ok false) ∧
    (isPatternAcceptable env0 1 [] 0 0 (.num fourPointThree)
      { pattern := some (.num fourPointTwo), customPresent := false, customTypeNames := none } =
      .ok false) ∧
    (∀ (env : GuardEnv) (fuel : Nat) (rules : List Rule) (ruleIndex inputIndex : Nat) (q : ℚ),
      q.den = 1 → rulesWFAt rules inputIndex = true →
      hasNumberLiteralAt rules inputIndex q = false →
      isPatternAcceptable env (fuel + 1) rules ruleIndex inputIndex (.num q)
        { pattern := some (.ctor .Number), customPresent := false, customTypeNames := none } =
        .ok true) := by
  refine ⟨?_, rfl, rfl, rfl, ?_⟩
  · intro env fuel rules ruleIndex inputIndex q hden
    exact iPA_num_generic_float env fuel rules ruleIndex inputIndex q hden
  · intro env fuel rules ruleIndex inputIndex q hden hwf hnone
    rw [iPA_num_generic env fuel rules ruleIndex inputIndex q hden,
      numberScan_eval rules inputIndex q hwf, hnone]
    rfl

theorem C5_witness :
    fourPointTwo.den ≠ 1 ∧
    isPatternAcceptable env0 1 [] 0 0 (.num fourPointTwo)
      { pattern := some (.ctor .Number), customPresent := false, customTypeNames := none } =
      .ok false ∧
    (3 : ℚ).den = 1 ∧
    rulesWFAt [wildRule] 0 = true ∧
    hasNumberLiteralAt [wildRule] 0 3 = false ∧
    isPatternAcceptable env0 1 [wildRule] 0 0 (.num 3)
      { pattern := some (.ctor .Number), customPresent := false, customTypeNames := none } =
      .ok true :=
  ⟨by decide, C5_float_exclusion.1 env0 0 [] 0 0 fourPointTwo (by decide), rfl, rfl, rfl,
    C5_float_exclusion.2.2.2.2 env0 0 [wildRule] 0 0 3 rfl rfl rfl⟩

/-- C8 (amended): a guard whose result is not a Boolean raises the
invariant fault (never a rejection); a guard returning `true` accepts;
a guard returning `false` does not short-circuit to a rejection but
falls through to the structural checks — for primitive inputs these all
reject, while a mapping input can still be accepted through the
property-name destructuring route (see `C8_counterexample`). -/
theorem guardSection_fn_nonbool (env : GuardEnv) (gi : Nat) (input : Value)
    (hb : isType "Boolean" (env gi input) = false) :
    guardSection env (.fn gi) input =
      .error (.invariantFault "guard function does not return a Boolean") := by
  unfold guardSection
  rw [show TYPESmem (.fn gi) = false from rfl]
  rw [show isType "Promise" (.fn gi) = false from rfl]
  rw [show isType "Function" (.fn gi) = true from rfl]
  simp [hb]

theorem C8_guard_semantics :
    (∀ (env : GuardEnv) (fuel : Nat) (rules : List Rule) (ruleIndex inputIndex : Nat)
      (input : Value) (gi : Nat),
      isType "Boolean" (env gi input) = false →
      isPatternAcceptable env (fuel + 1) rules ruleIndex inputIndex input
        { pattern := some (.fn gi), customPresent := false, customTypeNames := none } =
        .error (.invariantFault "guard function does not return a Boolean")) ∧
    (∀ (env : GuardEnv) (fuel : Nat) (rules : List Rule) (ruleIndex inputIndex : Nat)
      (input : Value) (gi : Nat),
      env gi input = .bool true →
      isPatternAcceptable env (fuel + 1) rules ruleIndex inputIndex input
        { pattern := some (.fn gi), customPresent := false, customTypeNames := none } =
        .ok true) ∧
    (∀ (env : GuardEnv) (fuel : Nat) (rules : List Rule) (ruleIndex inputIndex : Nat)
      (input : Value) (gi : Nat),
      env gi input = .bool false → isPrimitiveValue input = true →
      isPatternAcceptable env (fuel + 1) rules ruleIndex inputIndex input
        { pattern := some (.fn gi), customPresent := false, customTypeNames := none } =
        .ok false) := by
  refine ⟨?_, ?_, ?_⟩
  · intro env fuel rules ruleIndex inputIndex input gi hb
    simp only [isPatternAcceptable, engineGo, customTypeNamesSection, Bool.false_eq_true,
      if_false, ite_false, Option.getD_some, pure, Except.pure]
    rw [guardSection_fn_nonbool env gi input hb]
  · intro env fuel rules ruleIndex inputIndex input gi htrue
    simp [isPatternAcceptable, engineGo, customTypeNamesSection, guardSection, TYPESmem,
      isType, jsTypeTag, htrue, truthy, pure, Except.pure]
  · intro env fuel rules ruleIndex inputIndex input gi hfalse hprim
    cases input with
    | num q =>
      by_cases hq : q.den = 1 <;>
        simp [isPatternAcceptable, engineGo, customTypeNamesSection, guardSection, TYPESmem,
          isArrayLike, isType, jsTypeTag, isFloat, hq, strictEq, isEqual, hfalse, truthy,
          pure, Except.pure]
    | str s =>
      simp [isPatternAcceptable, engineGo, customTypeNamesSection, guardSection, TYPESmem,
        isArrayLike, isType, jsTypeTag, isFloat, strictEq, jsToString, hfalse, truthy,
        pure, Except.pure]
    | bool b =>
      simp [isPatternAcceptable, engineGo, customTypeNamesSection, guardSection, TYPESmem,
        isArrayLike, isType, jsTypeTag, isFloat, strictEq, hfalse, truthy, pure, Except.pure]
    | null =>
      simp [isPatternAcceptable, engineGo, customTypeNamesSection, guardSection, TYPESmem,
        isArrayLike, isType, jsTypeTag, isFloat, strictEq, hfalse, truthy, pure, Except.pure]
    | undef =>
      simp [isPatternAcceptable, engineGo, customTypeNamesSection, guardSection, TYPESmem,
        isArrayLike, isType, jsTypeTag, isFloat, strictEq, hfalse, truthy, pure, Except.pure]
    | obj kvs => simp [isPrimitiveValue] at hprim
    | arr vs => simp [isPrimitiveValue] at hprim
    | date ms => simp [isPrimitiveValue] at hprim
    | ctor c => simp [isPrimitiveValue] at hprim
    | fn j => simp [isPrimitiveValue] at hprim
    | instOf n ps fs => simp [isPrimitiveValue] at hprim

theorem C8_witness :
    isType "Boolean" (env0 0 (.num 3)) = false ∧
    isPatternAcceptable env0 1 [] 0 0 (.num 3)
      { pattern := some (.fn 0), customPresent := false, customTypeNames := none } =
      .error (.invariantFault "guard function does not return a Boolean") ∧
    c8Env 0 (.num 1) = .bool true ∧
    isPatternAcceptable c8Env 1 [] 0 0 (.num 1)
      { pattern := some (.fn 0), customPresent := false, customTypeNames := none } = .ok true ∧
    c8Env 0 (.num 2) = .bool false ∧ isPrimitiveValue (.num 2) = true ∧
    isPatternAcceptable c8Env 1 [] 0 0 (.num 2)
      { pattern := some (.fn 0), customPresent := false, customTypeNames := none } =
      .ok false :=
  ⟨rfl, C8_guard_semantics.1 env0 0 [] 0 0 (.num 3) 0 rfl, rfl,
    C8_guard_semantics.2.1 c8Env 0 [] 0 0 (.num 1) 0 rfl, rfl, rfl,
    C8_guard_semantics.2.2 c8Env 0 [] 0 0 (.num 2) 0 rfl rfl⟩

/-- C8 counterexample: the guard `$ => $ === 1` returns the Boolean
`false` on the input `{g: 1}`, yet the guard pattern accepts it (the
false guard falls through to the object property-name route, where the
property `g` holds `1`, which satisfies the same guard). -/
theorem C8_counterexample :
    c8Env 0 c8Input = .bool false ∧
    isPatternAcceptable c8Env 9 c8Rules 0 0 c8Input
      { pattern := some (.fn 0), customPresent := false, customTypeNames := none } =
      .ok true :=
  ⟨rfl, rfl⟩

theorem AcceptsAt_out_of_range (env : GuardEnv) (fuel : Nat) (inputs : List Value)
    (rules : List Rule) (j : Nat) (hj : rules.length ≤ j) :
    ¬ AcceptsAt env fuel inputs rules j := by
  rintro ⟨-, r, hr, -, -⟩
  rw [List.getElem?_eq_none hj] at hr
  exact Option.noConfusion hr

theorem resolveGo_cases (env : GuardEnv) (fuel : Nat) (inputs : List Value)
    (rules : List Rule) :
    ∀ (rs : List Rule) (k : Nat), rs = rules.drop k →
    ∀ o, resolveGo env fuel inputs rules (indexOfWildcardRule rules) k rs = .ok o →
      (∃ i, k ≤ i ∧ o = .matched i inputs ∧ AcceptsAt env fuel inputs rules i ∧
        ∀ j, k ≤ j → j < i → ¬ AcceptsAt env fuel inputs rules j) ∨
      ((o = if (indexOfWildcardRule rules).isSome then Outcome.defaulted else Outcome.noMatch) ∧
        ∀ j, k ≤ j → ¬ AcceptsAt env fuel inputs rules j) := by
  intro rs
  induction rs with
  | nil =>
    intro k hdrop o hrun
    right
    have hlen : rules.length ≤ k := by
      have := congrArg List.length hdrop
      simp [List.length_drop] at this
      omega
    constructor
    · rw [resolveGo] at hrun
      cases hs : (indexOfWildcardRule rules).isSome <;> simp [hs, pure, Except.pure] at hrun <;>
        simp [hs, hrun.symm]
    · intro j hj
      exact AcceptsAt_out_of_range env fuel inputs rules j (le_trans hlen hj)
  | cons r rest ih =>
    intro k hdrop o hrun
    have hk : rules[k]? = some r := by
      have h0 : (rules.drop k)[0]? = some r := by rw [← hdrop]; simp
      rwa [List.getElem?_drop, Nat.add_zero] at h0
    have hrest : rest = rules.drop (k + 1) := by
      have := congrArg List.tail hdrop
      simpa [List.tail_drop] using this
    rw [resolveGo] at hrun
    by_cases hc : some k ≠ indexOfWildcardRule rules ∧ r.arity = inputs.length
    · rw [if_pos hc] at hrun
      cases heval : allInputsSatisfyRule env fuel r inputs k rules with
      | error e => rw [heval] at hrun; exact absurd hrun (by simp)
      | ok b =>
        rw [heval] at hrun
        cases b with
        | true =>
          left
          refine ⟨k, le_refl k, ?_, ⟨hc.1, r, hk, hc.2, heval⟩, ?_⟩
          · simpa [pure, Except.pure] using hrun.symm
          · intro j h1 h2; omega
        | false =>
          have hnotk : ¬ AcceptsAt env fuel inputs rules k := by
            rintro ⟨-, r2, hr2, -, heval2⟩
            rw [hk] at hr2
            injection hr2 with hr2
            rw [← hr2] at heval2
            rw [heval] at heval2
            exact absurd heval2 (by simp)
          rcases ih (k + 1) hrest o hrun with ⟨i, hi, ho, hacc, hmin⟩ | ⟨ho, hall⟩
          · left
            refine ⟨i, by omega, ho, hacc, ?_⟩
            intro j h1 h2
            rcases Nat.eq_or_lt_of_le h1 with rfl | hlt
            · exact hnotk
            · exact hmin j hlt h2
          · right
            refine ⟨ho, ?_⟩
            intro j h1
            rcases Nat.eq_or_lt_of_le h1 with rfl | hlt
            · exact hnotk
            · exact hall j hlt
    · rw [if_neg hc] at hrun
      have hnotk : ¬ AcceptsAt env fuel inputs rules k := by
        rintro ⟨h1, r2, hr2, h3, -⟩
        rw [hk] at hr2
        injection hr2 with hr2
        exact hc ⟨h1, hr2 ▸ h3⟩
      rcases ih (k + 1) hrest o hrun with ⟨i, hi, ho, hacc, hmin⟩ | ⟨ho, hall⟩
      · left
        refine ⟨i, by omega, ho, hacc, ?_⟩
        intro j h1 h2
        rcases Nat.eq_or_lt_of_le h1 with rfl | hlt
        · exact hnotk
        · exact hmin j hlt h2
      · right
        refine ⟨ho, ?_⟩
        intro j h1
        rcases Nat.eq_or_lt_of_le h1 with rfl | hlt
        · exact hnotk
        · exact hall j hlt

/-- C6: with a trailing wildcard and a non-empty input tuple, a
resolution that completes normally returns either the first
fully-accepting non-wildcard arity-matching rule's body applied to the
inputs, or — when no such rule accepts — the wildcard outcome (its body
applied to no arguments); it never returns the silent no-match result. -/
theorem C6_wildcard_totality (env : GuardEnv) (fuel : Nat) (inputs : List Value)
    (rules : List Rule)
    (hw : indexOfWildcardRule rules = some (rules.length - 1))
    (_hne : inputs ≠ []) :
    ∀ o, resolve env fuel inputs rules = .ok o →
      (∃ i, o = .matched i inputs ∧ AcceptsAt env fuel inputs rules i ∧
        ∀ j, j < i → ¬ AcceptsAt env fuel inputs rules j) ∨
      (o = .defaulted ∧ ∀ j, ¬ AcceptsAt env fuel inputs rules j) := by
  intro o hrun
  rw [resolve] at hrun
  rcases resolveGo_cases env fuel inputs rules rules 0 (by simp) o hrun with
    ⟨i, -, ho, hacc, hmin⟩ | ⟨ho, hall⟩
  · exact Or.inl ⟨i, ho, hacc, fun j hj => hmin j (Nat.zero_le j) hj⟩
  · right
    rw [hw] at ho
    exact ⟨by simpa using ho, fun j => hall j (Nat.zero_le j)⟩

theorem C6_witness :
    indexOfWildcardRule [plainRule "n" (.num 1), wildRule] =
      some ([plainRule "n" (.num 1), wildRule].length - 1) ∧
    ([Value.num 2] : List Value) ≠ [] ∧
    ((∃ i, Outcome.defaulted = Outcome.matched i [Value.num 2] ∧
        AcceptsAt env0 1 [Value.num 2] [plainRule "n" (.num 1), wildRule] i ∧
        ∀ j, j < i → ¬ AcceptsAt env0 1 [Value.num 2] [plainRule "n" (.num 1), wildRule] j) ∨
      (Outcome.defaulted = Outcome.defaulted ∧
        ∀ j, ¬ AcceptsAt env0 1 [Value.num 2] [plainRule "n" (.num 1), wildRule] j)) :=
  ⟨rfl, by simp,
    C6_wildcard_totality env0 1 [Value.num 2] [plainRule "n" (.num 1), wildRule] rfl
      (by simp) Outcome.defaulted rfl⟩

/-- C7: a rule selected by the resolution loop always exists, is not the
wildcard, and has declared arity equal to the number of inputs — so a
non-wildcard rule whose arity differs from the input count is never the
selected rule. -/
theorem C7_arity_filter (env : GuardEnv) (fuel : Nat) (inputs : List Value)
    (rules : List Rule) (i : Nat) (args : List Value)
    (hrun : resolve env fuel inputs rules = .ok (.matched i args)) :
    args = inputs ∧ some i ≠ indexOfWildcardRule rules ∧
      ∃ r, rules[i]? = some r ∧ r.arity = inputs.length := by
  rw [resolve] at hrun
  rcases resolveGo_cases env fuel inputs rules rules 0 (by simp) _ hrun with
    ⟨i2, -, ho, hacc, -⟩ | ⟨ho, -⟩
  · have hi : i = i2 ∧ args = inputs := by
      rw [Outcome.matched.injEq] at ho
      exact ⟨ho.1, ho.2⟩
    rcases hacc with ⟨hn, r, hr, ha, -⟩
    exact ⟨hi.2, hi.1 ▸ hn, r, hi.1 ▸ hr, ha⟩
  · cases hs : (indexOfWildcardRule rules).isSome <;> rw [hs] at ho <;> simp at ho

theorem C7_witness :
    resolve env0 1 [.num 3] [plainRule "n" (.num 3), wildRule] = .ok (.matched 0 [.num 3]) ∧
    ([Value.num 3] = [Value.num 3] ∧
      some 0 ≠ indexOfWildcardRule [plainRule "n" (.num 3), wildRule] ∧
      ∃ r, [plainRule "n" (.num 3), wildRule][0]? = some r ∧ r.arity = 1) :=
  ⟨rfl, C7_arity_filter env0 1 [.num 3] [plainRule "n" (.num 3), wildRule] 0 [.num 3] rfl⟩

theorem collectGo_objOnly (inputIndex K : Nat) :
    ∀ (rs : List Rule) (i : Nat) (acc : List BestFit),
      rs.all (fun r => ruleIsWildcard r || objOnlyArg inputIndex r) = true →
      collectBestFitRulesGo inputIndex K i rs acc =
        .ok (acc ++ shapeCandidatesGo inputIndex K i rs) := by
  intro rs
  induction rs with
  | nil => intro i acc _; simp [collectBestFitRulesGo, shapeCandidatesGo, pure, Except.pure]
  | cons r rest ih =>
    intro i acc hall
    rw [List.all_cons, Bool.and_eq_true] at hall
    obtain ⟨hr, hrest⟩ := hall
    have ihh : ∀ acc2, collectBestFitRulesGo inputIndex K (i + 1) rest acc2 =
        .ok (acc2 ++ shapeCandidatesGo inputIndex K (i + 1) rest) :=
      fun acc2 => ih (i + 1) acc2 hrest
    rw [collectBestFitRulesGo, shapeCandidatesGo]
    by_cases hw : ruleIsWildcard r
    · rw [if_pos hw, if_pos hw, ihh acc]; simp
    · rw [if_neg hw, if_neg hw]
      rw [Bool.or_eq_true] at hr
      rcases hr with hr | hr
      · exact absurd hr hw
      rw [objOnlyArg] at hr
      cases harg : r.allReflectedArgs[inputIndex]? with
      | none => rw [harg] at hr; simp at hr
      | some ra =>
        rw [harg] at hr
        rw [Bool.and_eq_true] at hr
        obtain ⟨hsub, hpat⟩ := hr
        cases hsubp : ra.subPatterns with
        | some subs => rw [hsubp] at hsub; simp at hsub
        | none =>
          cases hp : ra.pattern with
          | none =>
            simp [getReflectedArg, harg, hp, hsubp, ihh, pure, Except.pure]
          | some p =>
            rw [hp] at hpat
            cases p with
            | obj kvs =>
              by_cases hsz : kvs.length ≤ K <;>
                simp [getReflectedArg, harg, hp, hsubp, jsTypeofObject, pushIfValidSize,
                  hsz, ihh, pure, Except.pure]
            | ctor c =>
              cases c
              · simp [getReflectedArg, harg, hp, hsubp, jsTypeofObject, ihh, pure, Except.pure]
              all_goals exact absurd hpat (by simp)
            | num q => exact absurd hpat (by simp)
            | str s => exact absurd hpat (by simp)
            | bool b => exact absurd hpat (by simp)
            | null => exact absurd hpat (by simp)
            | undef => exact absurd hpat (by simp)
            | arr vs => exact absurd hpat (by simp)
            | date ms => exact absurd hpat (by simp)
            | fn j => exact absurd hpat (by simp)
            | instOf n ps fs => exact absurd hpat (by simp)

theorem collectBestFitRules_objOnly (rules : List Rule) (inputIndex K : Nat)
    (h : objOnlyAt rules inputIndex = true) :
    collectBestFitRules rules inputIndex K = .ok (shapeCandidates rules inputIndex K) := by
  rw [collectBestFitRules, shapeCandidates, collectGo_objOnly inputIndex K rules 0 [] h]
  simp

/-- C3 (amended): for rule sets whose patterns at the position are object
shapes or the generic `Object` constructor, a generic `Object` pattern
accepts a mapping input exactly when no collected shape candidate sits at
a later rule index; the claim's two ordering examples resolve as stated.
Outside that restriction the collection also gathers array patterns and
union alternatives, which also preempt the generic (see
`C3_counterexample`). -/
theorem C3_generic_object_ordering :
    (∀ (env : GuardEnv) (fuel : Nat) (rules : List Rule) (inputIndex ruleIndex : Nat)
      (kvs : List (String × Value)),
      objOnlyAt rules inputIndex = true →
      ruleMatchesObjectInput env (fuel + 1) (.obj kvs) inputIndex rules ruleIndex
        (.ctor .Object) =
        .ok (!laterShapeCandidateExists rules inputIndex kvs.length ruleIndex)) ∧
    (resolve env0 5 [.obj [("x", .num 1), ("y", .num 2)]] c3RulesGenericFirst =
      .ok (.matched 1 [.obj [("x", .num 1), ("y", .num 2)]])) ∧
    (resolve env0 5 [.obj [("x", .num 1), ("y", .num 2)]] c3RulesShapeFirst =
      .ok (.matched 0 [.obj [("x", .num 1), ("y", .num 2)]])) := by
  refine ⟨?_, rfl, rfl⟩
  intro env fuel rules inputIndex ruleIndex kvs hobj
  simp only [ruleMatchesObjectInput, engineGo]
  have hsize : (objectKeysOf (.obj kvs)).length = kvs.length := by
    simp [objectKeysOf, objectFieldsOf]
  rw [hsize, collectBestFitRules_objOnly rules inputIndex kvs.length hobj]
  rw [show strictEq (.ctor .Object) (.ctor .Object) = true from rfl]
  simp [laterShapeCandidateExists, pure, Except.pure]

theorem C3_witness :
    objOnlyAt c3RulesGenericFirst 0 = true ∧
    ruleMatchesObjectInput env0 1 (.obj [("x", .num 1), ("y", .num 2)]) 0
      c3RulesGenericFirst 0 (.ctor .Object) =
      .ok (!laterShapeCandidateExists c3RulesGenericFirst 0 2 0) :=
  ⟨rfl, C3_generic_object_ordering.1 env0 0 c3RulesGenericFirst 0 0
    [("x", .num 1), ("y", .num 2)] rfl⟩

/-- C3 counterexample: with `[Object => B, (a = [9]) => A, _ => C]` and
the input `{x: 1}`, no non-wildcard rule at an index greater than 0 has
an object shape pattern with key count at most 1 — yet the generic
`Object` pattern at index 0 rejects, because the engine's candidate
collection also gathered the later rule's array pattern
(`typeof [9] === 'object'`, one key).  The claim's "if and only if" is
therefore false as stated. -/
theorem C3_counterexample :
    ruleMatchesObjectInput env0 5 (.obj [("x", .num 1)]) 0 c3cexRules 0 (.ctor .Object) =
      .ok false ∧
    laterShapeCandidateExists c3cexRules 0 1 0 = false :=
  ⟨rfl, rfl⟩

theorem shapeCandidatesGo_mem (inputIndex K : Nat) :
    ∀ (rs : List Rule) (base j : Nat) (r : Rule) (ra : ReflectedArg)
      (pkvs : List (String × Value)),
      rs[j]? = some r → ruleIsWildcard r = false →
      r.allReflectedArgs[inputIndex]? = some ra → ra.pattern = some (.obj pkvs) →
      pkvs.length ≤ K →
      (⟨pkvs.length, base + j⟩ : BestFit) ∈ shapeCandidatesGo inputIndex K base rs := by
  intro rs
  induction rs with
  | nil => intro base j r ra pkvs hj; simp at hj
  | cons rr rest ih =>
    intro base j r ra pkvs hj hw harg hp hsz
    cases j with
    | zero =>
      rw [List.getElem?_cons_zero] at hj
      injection hj with hj
      subst hj
      rw [shapeCandidatesGo]
      apply List.mem_append_left
      simp [hw, harg, hp, hsz]
    | succ j2 =>
      rw [List.getElem?_cons_succ] at hj
      rw [shapeCandidatesGo]
      apply List.mem_append_right
      have := ih (base + 1) j2 r ra pkvs hj hw harg hp hsz
      have harith : base + 1 + j2 = base + (j2 + 1) := by omega
      rwa [harith] at this

theorem maximumSize_isSome {cands : List BestFit} (h : cands ≠ []) :
    ∃ m, maximumSize cands = some m := by
  cases cands with
  | nil => exact absurd rfl h
  | cons b bs => exact ⟨_, rfl⟩

/-- C2 (amended): for a concrete non-empty object-shape pattern with at
most as many keys as the mapping input, within an object-only rule set
and with the rule's parameter name not itself an input key, acceptance
is exactly "this rule is among the shape candidates tied at the maximum
key count, and every declared key deep-equals the input's value"; the
claim's two selection examples hold.  Without those restrictions the
"only if" fails through the property-name destructuring fallthrough
(see `C2_counterexample`). -/
theorem C2_object_best_fit :
    (∀ (env : GuardEnv) (fuel : Nat) (rules : List Rule) (ruleIndex inputIndex : Nat)
      (rule : Rule) (ra : ReflectedArg) (pkvs kvs : List (String × Value)),
      objOnlyAt rules inputIndex = true →
      rules[ruleIndex]? = some rule →
      ruleIsWildcard rule = false →
      rule.allReflectedArgs[inputIndex]? = some ra →
      ra.pattern = some (.obj pkvs) →
      pkvs ≠ [] →
      pkvs.length ≤ kvs.length →
      (kvs.map Prod.fst).contains ra.argName = false →
      ruleMatchesObjectInput env (fuel + 2) (.obj kvs) inputIndex rules ruleIndex
        (.obj pkvs) =
        .ok (amongTiedAtMax (shapeCandidates rules inputIndex kvs.length) ruleIndex &&
          ((objectKeysOf (.obj pkvs)).all fun key =>
            isEqual (objectGet (.obj pkvs) key) (objectGet (.obj kvs) key)))) ∧
    (resolve env0 5 [.obj [("x", .num 1), ("y", .num 2)]] c2Rules =
      .ok (.matched 1 [.obj [("x", .num 1), ("y", .num 2)]])) ∧
    (resolve env0 5 [.obj [("x", .num 1)]] c2Rules = .ok (.matched 0 [.obj [("x", .num 1)]])) := by
  refine ⟨?_, rfl, rfl⟩
  intro env fuel rules ruleIndex inputIndex rule ra pkvs kvs hobj hrule hw harg hp hne hle hnm
  have hsize : (objectKeysOf (Value.obj kvs)).length = kvs.length := by
    simp [objectKeysOf, objectFieldsOf]
  have hpk : (objectKeysOf (Value.obj pkvs)).length = pkvs.length := by
    simp [objectKeysOf, objectFieldsOf]
  have hmem : (⟨pkvs.length, ruleIndex⟩ : BestFit) ∈
      shapeCandidates rules inputIndex kvs.length := by
    have := shapeCandidatesGo_mem inputIndex kvs.length rules 0 ruleIndex rule ra pkvs
      hrule hw harg hp hle
    simpa [shapeCandidates] using this
  have hnonempty : shapeCandidates rules inputIndex kvs.length ≠ [] := by
    intro hcon
    rw [hcon] at hmem
    exact absurd hmem (List.not_mem_nil _)
  obtain ⟨m, hm⟩ := maximumSize_isSome hnonempty
  have hne3 : (pkvs.length = 0) = False := by simpa using hne
  have hle3 : ((objectKeysOf (Value.obj pkvs)).length ≤ kvs.length) = True := by
    rw [hpk]
    simpa using hle
  simp only [ruleMatchesObjectInput, engineGo, hsize,
    collectBestFitRules_objOnly rules inputIndex kvs.length hobj,
    show strictEq (Value.ctor .Object) (Value.obj pkvs) = false from rfl,
    show isType "Object" (Value.obj pkvs) = true from rfl,
    hpk, hne3, hle3, hm, pure, Except.pure, Bool.false_eq_true, if_false, ite_false,
    if_true, ite_true, reduceCtorEq, reduceIte]
  rw [amongTiedAtMax, hm]
  cases hamong : (shapeCandidates rules inputIndex kvs.length).filter
      (fun b => decide (b.size ≥ m)) |>.any fun b => decide (b.index = ruleIndex) with
  | true =>
    simp only [hamong, if_true, ite_true, Bool.true_and]
    rw [if_pos hle]
  | false =>
    simp only [hamong, Bool.false_eq_true, if_false, ite_false, Bool.false_and]
    have hcontains : ((objectKeysOf (Value.obj kvs)).contains ra.argName) = false := by
      simpa [objectKeysOf, objectFieldsOf] using hnm
    simp only [getRule, hrule, getReflectedArg, harg, pure, Except.pure, hcontains,
      Bool.false_eq_true, if_false, ite_false]
    rw [if_pos hle]

theorem C2_witness :
    objOnlyAt c2Rules 0 = true ∧
    c2Rules[1]? = some (plainRule "o" (.obj [("x", .num 1), ("y", .num 2)])) ∧
    ruleIsWildcard (plainRule "o" (.obj [("x", .num 1), ("y", .num 2)])) = false ∧
    ruleMatchesObjectInput env0 2 (.obj [("x", .num 1), ("y", .num 2)]) 0 c2Rules 1
      (.obj [("x", .num 1), ("y", .num 2)]) =
      .ok (amongTiedAtMax (shapeCandidates c2Rules 0 2) 1 &&
        ((objectKeysOf (.obj [("x", .num 1), ("y", .num 2)])).all fun key =>
          isEqual (objectGet (.obj [("x", .num 1), ("y", .num 2)]) key)
            (objectGet (.obj [("x", .num 1), ("y", .num 2)]) key))) :=
  ⟨rfl, rfl, rfl,
    C2_object_best_fit.1 env0 0 c2Rules 1 0
      (plainRule "o" (.obj [("x", .num 1), ("y", .num 2)]))
      (namedArg "o" (.obj [("x", .num 1), ("y", .num 2)]))
      [("x", .num 1), ("y", .num 2)] [("x", .num 1), ("y", .num 2)]
      rfl rfl rfl rfl rfl (by simp) (by simp) rfl⟩

/-- C2 counterexample: with rules `[(x = {x:1}) => A, (o = {p:1,q:2}) => B, _]`
and the input `{x: {x:1}, y: 9}`, the pattern `{x:1}` at rule index 0 is
not among the shape candidates tied at the maximum key count (rule 1 holds
the two-key maximum), yet the pattern accepts the input: the engine falls
through to the property-name destructuring route because the rule's
parameter is named `x` like an input key, and the property value `{x:1}`
recursively satisfies the pattern.  The claim's "if and only if" is
therefore false as stated. -/
theorem C2_counterexample :
    ruleMatchesObjectInput env0 9 c2cexInput 0 c2cexRules 0 (.obj [("x", .num 1)]) =
      .ok true ∧
    amongTiedAtMax (shapeCandidates c2cexRules 0 2) 0 = false :=
  ⟨rfl, rfl⟩

theorem pushIfValidSize_ok (K idx : Nat) (p : Value) (acc : List BestFit)
    (hp1 : p ≠ .null) (hp2 : p ≠ .undef) :
    ∃ l, pushIfValidSize K idx p acc = .ok l := by
  cases p <;> simp [pushIfValidSize, pure, Except.pure] at hp1 hp2 ⊢

theorem pushSubPatterns_ok (K idx : Nat) :
    ∀ (subs : List Value) (acc : List BestFit),
      (subs.all fun sp => match sp with
        | .null => false
        | .undef => false
        | _ => true) = true →
      ∃ l, pushSubPatterns K idx subs acc = .ok l := by
  intro subs
  induction subs with
  | nil => intro acc _; exact ⟨acc, rfl⟩
  | cons sp rest ih =>
    intro acc hall
    rw [List.all_cons, Bool.and_eq_true] at hall
    obtain ⟨hsp, hrest⟩ := hall
    have hp1 : sp ≠ .null := by intro h; rw [h] at hsp; simp at hsp
    have hp2 : sp ≠ .undef := by intro h; rw [h] at hsp; simp at hsp
    obtain ⟨l2, hl2⟩ := pushIfValidSize_ok K idx sp acc hp1 hp2
    rw [pushSubPatterns, hl2]
    exact ih l2 hrest

theorem collectGo_safe (inputIndex K : Nat) :
    ∀ (rs : List Rule) (i : Nat) (acc : List BestFit),
      (rs.all fun r => ruleIsWildcard r || collectSafeArg inputIndex r) = true →
      ∃ l, collectBestFitRulesGo inputIndex K i rs acc = .ok l := by
  intro rs
  induction rs with
  | nil => intro i acc _; exact ⟨acc, rfl⟩
  | cons r rest ih =>
    intro i acc hall
    rw [List.all_cons, Bool.and_eq_true] at hall
    obtain ⟨hr, hrest⟩ := hall
    rw [collectBestFitRulesGo]
    by_cases hw : ruleIsWildcard r
    · rw [if_pos hw]
      exact ih (i + 1) acc hrest
    · rw [if_neg hw]
      rw [Bool.or_eq_true] at hr
      rcases hr with hr | hr
      · exact absurd hr hw
      rw [collectSafeArg] at hr
      cases harg : r.allReflectedArgs[inputIndex]? with
      | none => rw [harg] at hr; simp at hr
      | some ra =>
        rw [harg] at hr
        rw [Bool.and_eq_true] at hr
        obtain ⟨hpat, hsubs⟩ := hr
        cases hp : ra.pattern with
        | none =>
          cases hsubp : ra.subPatterns with
          | none =>
            simp only [getReflectedArg, harg, hp, hsubp, pure, Except.pure]
            exact ih (i + 1) acc hrest
          | some subs =>
            rw [hsubp] at hsubs
            obtain ⟨l2, hl2⟩ := pushSubPatterns_ok K i subs acc hsubs
            simp only [getReflectedArg, harg, hp, hsubp, pure, Except.pure, hl2]
            exact ih (i + 1) l2 hrest
        | some p =>
          rw [hp] at hpat
          have hp1 : p ≠ .null := by intro h; rw [h] at hpat; simp at hpat
          by_cases hto : jsTypeofObject p
          · have hp2 : p ≠ .undef := by intro h; rw [h] at hto; simp [jsTypeofObject] at hto
            obtain ⟨l2, hl2⟩ := pushIfValidSize_ok K i p acc hp1 hp2
            simp only [getReflectedArg, harg, hp, hto, if_true, ite_true, pure, Except.pure, hl2]
            exact ih (i + 1) l2 hrest
          · have hto2 : jsTypeofObject p = false := by simpa using hto
            cases hsubp : ra.subPatterns with
            | none =>
              simp only [getReflectedArg, harg, hp, hto2, Bool.false_eq_true, if_false,
                ite_false, hsubp, pure, Except.pure]
              exact ih (i + 1) acc hrest
            | some subs =>
              rw [hsubp] at hsubs
              obtain ⟨l2, hl2⟩ := pushSubPatterns_ok K i subs acc hsubs
              simp only [getReflectedArg, harg, hp, hto2, Bool.false_eq_true, if_false,
                ite_false, hsubp, pure, Except.pure, hl2]
              exact ih (i + 1) l2 hrest

theorem collectBestFitRules_safe (rules : List Rule) (inputIndex K : Nat)
    (h : collectSafeAt rules inputIndex = true) :
    ∃ l, collectBestFitRules rules inputIndex K = .ok l :=
  collectGo_safe inputIndex K rules 0 [] h

theorem customSection_instOf (argn cname name : String) (parents : List String)
    (fields : List (String × Value)) :
    customTypeNamesSection (customArg argn cname).view (.instOf name parents fields) =
      .ok (decide (name = cname) || decide (parents.head? = some cname)) := by
  by_cases h1 : name = cname
  · subst h1
    simp [customTypeNamesSection, customArg, ReflectedArg.view, constructorName,
      pure, Except.pure]
  · cases hph : parents.head? with
    | none =>
      simp [customTypeNamesSection, customArg, ReflectedArg.view, constructorName,
        customParentCheck, tryGetParentClassName, hph, h1, pure, Except.pure]
    | some p =>
      by_cases h2 : p = cname
      · subst h2
        simp [customTypeNamesSection, customArg, ReflectedArg.view, constructorName,
          customParentCheck, tryGetParentClassName, hph, h1, pure, Except.pure]
      · simp [customTypeNamesSection, customArg, ReflectedArg.view, constructorName,
          customParentCheck, tryGetParentClassName, hph, h1, h2, pure, Except.pure]

theorem guardSection_str (env : GuardEnv) (cname : String) (input : Value) :
    guardSection env (.str cname) input = .ok false := rfl

theorem rMOI_str_rejects (env : GuardEnv) (fuel : Nat) (objectInput : Value)
    (inputIndex : Nat) (rules : List Rule) (ruleIndex : Nat) (cname : String)
    (rule : Rule) (ra : ReflectedArg) (l : List BestFit)
    (hl : collectBestFitRules rules inputIndex (objectKeysOf objectInput).length = .ok l)
    (hrule : rules[ruleIndex]? = some rule)
    (harg : rule.allReflectedArgs[inputIndex]? = some ra)
    (hcont : (objectKeysOf objectInput).contains ra.argName = false) :
    ruleMatchesObjectInput env (fuel + 2) objectInput inputIndex rules ruleIndex (.str cname) =
      .ok false := by
  rw [ruleMatchesObjectInput_step]
  simp only [hl, strictEq, isType, jsTypeTag, pure, Except.pure]
  rw [propertyNameRoute_step]
  simp only [getRule, hrule, getReflectedArg, harg, hcont, pure, Except.pure,
    Bool.false_eq_true, if_false, ite_false]
  simp

/-- C9 (amended): a `CustomType(name)` pattern accepts a class instance
whose own constructor name is `name` or whose single immediate parent
class name is `name`; an ancestor two or more levels up never triggers
these checks (second conjunct); and — provided the rule's parameter is
not named like one of the instance's own property keys — those are the
only ways the pattern accepts (the equivalence in the first conjunct).
Without the parameter-name proviso the property-name destructuring
route can also accept (see `C9_counterexample`). -/
theorem C9_custom_type :
    (∀ (env : GuardEnv) (fuel : Nat) (rules : List Rule) (ruleIndex inputIndex : Nat)
      (name : String) (parents : List String) (fields : List (String × Value))
      (argn cname : String) (rule : Rule),
      collectSafeAt rules inputIndex = true →
      rules[ruleIndex]? = some rule →
      rule.allReflectedArgs[inputIndex]? = some (customArg argn cname) →
      (fields.map Prod.fst).contains argn = false →
      isPatternAcceptable env (fuel + 3) rules ruleIndex inputIndex
        (.instOf name parents fields) (customArg argn cname).view =
        .ok (decide (name = cname) || decide (parents.head? = some cname))) ∧
    (isPatternAcceptable env0 9 c9Rules 0 0 (.instOf "Kid" ["Student", "Person"] [])
      (customArg "p" "Person").view = .ok false) := by
  refine ⟨?_, rfl⟩
  intro env fuel rules ruleIndex inputIndex name parents fields argn cname rule hsafe hrule
    harg hnm
  obtain ⟨l, hl⟩ := collectBestFitRules_safe rules inputIndex
    (objectKeysOf (.instOf name parents fields)).length hsafe
  have hcontains :
      ((objectKeysOf (Value.instOf name parents fields)).contains argn) = false := by
    simpa [objectKeysOf, objectFieldsOf] using hnm
  rw [isPatternAcceptable_step, customSection_instOf]
  cases hb : (decide (name = cname) || decide (parents.head? = some cname)) with
  | true => rfl
  | false =>
    show (let pattern := (customArg argn cname).view.pattern.getD Value.undef
          match guardSection env pattern (.instOf name parents fields) with
          | .error e => .error e
          | .ok true => pure true
          | .ok false =>
            if isArrayLike (Value.instOf name parents fields) &&
                !isType "String" (Value.instOf name parents fields) then
              ruleMatchesArrayInput (arrayElemsOf (.instOf name parents fields)) inputIndex
                rules ruleIndex pattern
            else if isType "Date" (Value.instOf name parents fields) &&
                strictEq (.ctor .Date) pattern then pure true
            else if isType "Object" (Value.instOf name parents fields) then
              ruleMatchesObjectInput env (fuel + 2) (.instOf name parents fields) inputIndex
                rules ruleIndex pattern
            else if isFloat (Value.instOf name parents fields) then
              pure (isEqual pattern (.instOf name parents fields))
            else if isType "Number" (Value.instOf name parents fields) then
              if strictEq (.ctor .Number) pattern then
                match otherRuleMatchesNumberLiteral rules inputIndex
                    (.instOf name parents fields) with
                | .error e => .error e
                | .ok true => pure false
                | .ok false => pure true
              else pure (strictEq (.instOf name parents fields) pattern)
            else if (isType "Function" (Value.instOf name parents fields) ||
                isType "GeneratorFunction" (Value.instOf name parents fields)) &&
                strictEq (.ctor .Function) pattern then pure true
            else if isType "Boolean" (Value.instOf name parents fields) then
              pure (strictEq (.ctor .Boolean) pattern ||
                strictEq pattern (.instOf name parents fields))
            else if isType "String" (Value.instOf name parents fields) then
              if strictEq (.ctor .String) pattern then
                match otherRuleMatchesStringLiteral rules inputIndex
                    (.instOf name parents fields) with
                | .error e => .error e
                | .ok true => pure false
                | .ok false => pure true
              else pure (strictEq pattern (jsToString (.instOf name parents fields)))
            else if isType "Error" (Value.instOf name parents fields) then
              pure (strictEq (.ctor .Error) pattern)
            else if isType "Null" (Value.instOf name parents fields) then
              pure (strictEq (.instOf name parents fields) pattern)
            else if isType "Undefined" (Value.instOf name parents fields) then
              pure (strictEq (.instOf name parents fields) pattern)
            else if isType "RegExp" (Value.instOf name parents fields) then
              pure (strictEq (.ctor .RegExp) pattern)
            else pure false) = Except.ok false
    simp only [customArg, ReflectedArg.view, Option.getD_some]
    rw [guardSection_str]
    simp only [isArrayLike, isType, jsTypeTag, Bool.false_and, Bool.and_self,
      Bool.false_eq_true, if_false, ite_false, String.reduceEq, reduceIte, pure, Except.pure]
    rw [rMOI_str_rejects env fuel (.instOf name parents fields) inputIndex rules ruleIndex
      cname rule (customArg argn cname) l hl hrule harg hcontains]
    simp

theorem C9_witness :
    collectSafeAt c9Rules 0 = true ∧
    c9Rules[0]? = some ⟨[customArg "p" "Person"]⟩ ∧
    (⟨[customArg "p" "Person"]⟩ : Rule).allReflectedArgs[0]? = some (customArg "p" "Person") ∧
    isPatternAcceptable env0 3 c9Rules 0 0 (.instOf "Student" ["Person"] [])
      (customArg "p" "Person").view =
      .ok (decide ("Student" = "Person") ||
        decide ((["Person"] : List String).head? = some "Person")) :=
  ⟨rfl, rfl, rfl,
    C9_custom_type.1 env0 0 c9Rules 0 0 "Student" ["Person"] [] "p" "Person"
      ⟨[customArg "p" "Person"]⟩ rfl rfl rfl rfl⟩

/-- C9 counterexample: an instance of class `X` (own name `X`, no
parent) with a property `p` holding a `Person` instance is accepted by
the pattern `(p = Person)` — neither its own type name nor any ancestor
equals `Person`; the acceptance comes from the property-name
destructuring route.  The claim's "if and only if" is therefore false
as stated. -/
theorem C9_counterexample :
    isPatternAcceptable env0 9 c9Rules 0 0 c9cexInput (customArg "p" "Person").view =
      .ok true ∧
    (match c9cexInput with
     | .instOf name parents _ => decide (name = "Person") ||
         decide (parents.head? = some "Person")
     | _ => true) = false :=
  ⟨rfl, rfl⟩

theorem everyWithIndexGo_prefix (arrayInput : List Value) (pat : List Value) :
    ∀ k : Nat, k + pat.length ≤ arrayInput.length →
      everyWithIndexGo
        (fun destructuredArrayValue i => isEqual destructuredArrayValue (arrayInput.getD i .undef))
        k pat = isEqualList pat (arrayInput.drop k) := by
  induction pat with
  | nil => intro k _; rfl
  | cons x xs ih =>
    intro k h
    have hk : k < arrayInput.length := by
      simp only [List.length_cons] at h
      omega
    have ih2 := ih (k + 1) (by simp only [List.length_cons] at h; omega)
    simp only [everyWithIndexGo, isEqualList]
    rw [List.drop_eq_getElem_cons hk, ih2,
      show arrayInput.getD k Value.undef = arrayInput[k] from by
        simp [List.getD_eq_getElem?_getD, List.getElem?_eq_getElem hk]]

theorem isEqualList_take (pat : List Value) :
    ∀ bs : List Value, isEqualList pat (bs.take pat.length) = isEqualList pat bs := by
  induction pat with
  | nil => intro bs; rfl
  | cons x xs ih =>
    intro bs
    cases bs with
    | nil => rfl
    | cons b bs2 => simp [isEqualList, List.take_succ_cons, ih bs2]

theorem isEqual_arr_take (pat bs : List Value) (h : pat.length ≤ bs.length) :
    isEqual (.arr pat) (.arr (bs.take pat.length)) = isEqualList pat bs := by
  simp [isEqual, List.length_take, Nat.min_eq_left h, isEqualList_take pat bs]

/-- C4 (amended): for a non-empty ArrayShape pattern of length `n ≤ L`,
the comparison mode is decided by the *total* number of rules, not by
the number of non-wildcard rules: when the rule set has exactly two
rules the pattern accepts iff its elements deep-equal the first `n`
input elements (prefix match), and with any other rule count the whole
input must deep-equal the pattern.  The third conjunct checks the
spec's own example `[[h, ...rest] => A, _ => B]` on `[1, 2, 3]` (the
destructured parameter accepts any input), and the fourth a genuine
two-rule prefix match selecting the array-pattern rule.  The spec's
"exactly one non-wildcard rule" reading diverges from the code in both
directions (see `C4_counterexample`). -/
theorem C4_array_prefix :
    (∀ (arrayInput : List Value) (inputIndex : Nat) (rules : List Rule) (ruleIndex : Nat)
      (patternElems : List Value),
      patternElems ≠ [] →
      patternElems.length ≤ arrayInput.length →
      rules.length = 2 →
      ruleMatchesArrayInput arrayInput inputIndex rules ruleIndex (.arr patternElems) =
        .ok (isEqual (.arr patternElems) (.arr (arrayInput.take patternElems.length)))) ∧
    (∀ (arrayInput : List Value) (inputIndex : Nat) (rules : List Rule) (ruleIndex : Nat)
      (patternElems : List Value),
      patternElems ≠ [] →
      patternElems.length ≤ arrayInput.length →
      rules.length ≠ 2 →
      ruleMatchesArrayInput arrayInput inputIndex rules ruleIndex (.arr patternElems) =
        .ok (isEqual (.arr patternElems) (.arr arrayInput))) ∧
    (resolve env0 9 [.arr [.num 1, .num 2, .num 3]] [destructuredRule, wildRule] =
      .ok (.matched 0 [.arr [.num 1, .num 2, .num 3]])) ∧
    (resolve env0 9 [.arr [.num 1, .num 2, .num 3]]
        [plainRule "a" (.arr [.num 1]), wildRule] =
      .ok (.matched 0 [.arr [.num 1, .num 2, .num 3]])) := by
  refine ⟨?_, ?_, rfl, rfl⟩
  · intro arrayInput inputIndex rules ruleIndex patternElems hne hle h2
    have hp0 : patternElems.length ≠ 0 := by
      simpa [List.length_eq_zero] using hne
    have hA : ¬(arrayInput.length = 0) := by omega
    simp only [ruleMatchesArrayInput]
    rw [if_neg hA, if_neg (by omega : ¬patternElems.length > arrayInput.length),
      if_neg hp0, if_pos h2,
      everyWithIndexGo_prefix arrayInput patternElems 0 (by omega), List.drop_zero,
      isEqual_arr_take patternElems arrayInput hle]
    rfl
  · intro arrayInput inputIndex rules ruleIndex patternElems hne hle h2
    have hp0 : patternElems.length ≠ 0 := by
      simpa [List.length_eq_zero] using hne
    have hA : ¬(arrayInput.length = 0) := by omega
    simp only [ruleMatchesArrayInput]
    rw [if_neg hA, if_neg (by omega : ¬patternElems.length > arrayInput.length),
      if_neg hp0, if_neg h2]
    rfl

theorem C4_witness :
    ([Value.num 1] : List Value) ≠ [] ∧
    ([Value.num 1] : List Value).length ≤ ([.num 1, .num 2, .num 3] : List Value).length ∧
    ([plainRule "a" (.arr [.num 1]), wildRule] : List Rule).length = 2 ∧
    ruleMatchesArrayInput [.num 1, .num 2, .num 3] 0
        [plainRule "a" (.arr [.num 1]), wildRule] 0 (.arr [.num 1]) =
      .ok (isEqual (.arr [.num 1])
        (.arr (([.num 1, .num 2, .num 3] : List Value).take ([Value.num 1] : List Value).length))) :=
  ⟨List.cons_ne_nil _ _, by decide, rfl,
    C4_array_prefix.1 [.num 1, .num 2, .num 3] 0
      [plainRule "a" (.arr [.num 1]), wildRule] 0 [.num 1]
      (List.cons_ne_nil _ _) (by decide) rfl⟩

/-- C4 counterexample: the code keys the prefix mode on
`rules.length === 2`, the claim on "exactly one non-wildcard rule".
With two non-wildcard rules and no wildcard (`c4cexRules`), the claim
demands whole-sequence equality, yet pattern `[1]` accepts input
`[1, 2]` by prefix; with a single rule and no wildcard, the claim
demands a prefix match, yet the same pattern rejects the same input. -/
theorem C4_counterexample :
    (c4cexRules.filter fun r => !ruleIsWildcard r).length = 2 ∧
    ruleMatchesArrayInput [.num 1, .num 2] 0 c4cexRules 0 (.arr [.num 1]) = .ok true ∧
    specArrayShapeAccepts c4cexRules [.num 1] [.num 1, .num 2] = false ∧
    (([plainRule "a" (.arr [.num 1])] : List Rule).filter fun r => !ruleIsWildcard r).length = 1 ∧
    ruleMatchesArrayInput [.num 1, .num 2] 0 [plainRule "a" (.arr [.num 1])] 0
      (.arr [.num 1]) = .ok false ∧
    specArrayShapeAccepts [plainRule "a" (.arr [.num 1])] [.num 1] [.num 1, .num 2] = true :=
  ⟨rfl, rfl, rfl, rfl, rfl, rfl⟩

end Wavematch
